import Mathlib

/-!
Verification of the f1-race-replay core pipeline:
telemetry stitching, global timeline construction, resampling
(linear interpolation and stepwise resampling), and frame synthesis
(lap-aware ranking, overtakes, fastest-lap cursor).

Numeric values are modelled as exact rationals; numpy float casts to
`int16` are modelled with explicit truncation and wraparound.
-/

open scoped List

namespace F1Replay

/-- Truncation toward zero, the semantics of Python `int(...)` and of a
numpy float-to-integer cast. -/
def ratTrunc (q : ℚ) : ℤ := if 0 ≤ q then ⌊q⌋ else ⌈q⌉

/-- Wrap an integer into the `int16` range, the semantics of
`numpy.ndarray.astype(np.int16)` on an integral value. -/
def int16wrap (n : ℤ) : ℤ := (n + 2 ^ 15) % 2 ^ 16 - 2 ^ 15

/-- `astype(np.int16)` applied to one float value: truncate toward zero,
then wrap into the `int16` range. -/
def astypeInt16 (q : ℚ) : ℚ := (int16wrap (ratTrunc q) : ℚ)

/-- Python `min` over a nonempty list (`[]` is given a default of `0`,
a case the callers never reach). -/
def listMin : List ℚ → ℚ
  | [] => 0
  | a :: l => l.foldl min a

/-- Python `max` over a nonempty list (`[]` is given a default of `0`,
a case the callers never reach). -/
def listMax : List ℚ → ℚ
  | [] => 0
  | a :: l => l.foldl max a

/-- Insert `a` into `acc` before the first element `b` with `lt a b`.
Together with `sortStable` this is the stable sort used to model
Python's `list.sort(key=..., reverse=...)`: an element inserted later
is placed after all already-present elements it does not strictly
precede. -/
def stableInsert (lt : α → α → Bool) (a : α) : List α → List α
  | [] => [a]
  | b :: l => if lt a b then a :: b :: l else b :: stableInsert lt a l

/-- Stable sort modelling Python `list.sort` with strict order `lt`
(`lt a b` = `a` must come strictly before `b`); elements neither of
which strictly precedes the other keep their original relative order. -/
def sortStable (lt : α → α → Bool) (l : List α) : List α :=
  l.foldl (fun acc a => stableInsert lt a acc) []

/-- `np.searchsorted(xs, x, side="right")` for a sorted `xs`: the number
of elements `<= x`. -/
def searchsortedRight (xs : List ℚ) (x : ℚ) : ℕ :=
  xs.countP (fun a => a ≤ x)

/-- One query of `np.interp(x, xp, fp)` with the default `left`/`right`
(clamp to the boundary samples), following numpy's `arr_interp`:
find the last index `j` with `xp[j] <= x`; below the first sample return
`fp[0]`, at or beyond the last return `fp[len-1]`, at an exact source
timestamp return that sample, otherwise interpolate linearly between
`j` and `j+1`. -/
def npInterpOne (xp fp : List ℚ) (x : ℚ) : ℚ :=
  if (searchsortedRight xp x : ℤ) - 1 < 0 then fp.getD 0 0
  else if (xp.length : ℤ) - 1 ≤ (searchsortedRight xp x : ℤ) - 1 then
    fp.getD (xp.length - 1) 0
  else if xp.getD (searchsortedRight xp x - 1) 0 = x then
    fp.getD (searchsortedRight xp x - 1) 0
  else
    fp.getD (searchsortedRight xp x - 1) 0 +
      (fp.getD (searchsortedRight xp x) 0 - fp.getD (searchsortedRight xp x - 1) 0) *
        (x - xp.getD (searchsortedRight xp x - 1) 0) /
        (xp.getD (searchsortedRight xp x) 0 - xp.getD (searchsortedRight xp x - 1) 0)

/-- `_interp_float`: linear interpolation of a continuous channel onto
the query times `t_dst`. -/
def interpFloat (tSrc vSrc tDst : List ℚ) : List ℚ :=
  tDst.map (npInterpOne tSrc vSrc)

/-- One query of `_interp_stepwise`: `idx = searchsorted(t_src, t, "right") - 1`
clipped into `[0, len(v_src) - 1]`, then `v_src[idx]`. -/
def interpStepwiseOne (tSrc vSrc : List ℚ) (t : ℚ) : ℚ :=
  vSrc.getD
    (max 0 (min ((searchsortedRight tSrc t : ℤ) - 1) ((vSrc.length : ℤ) - 1))).toNat 0

/-- `_interp_stepwise`: last-known-value resampling of a discrete channel
onto the query times `t_dst`. -/
def interpStepwise (tSrc vSrc tDst : List ℚ) : List ℚ :=
  tDst.map (interpStepwiseOne tSrc vSrc)

/-- `np.arange(start, stop, step)` for a positive step, in exact
arithmetic: `ceil((stop - start) / step)` elements `start + i * step`. -/
def npArange (start stop step : ℚ) : List ℚ :=
  (List.range (⌈(stop - start) / step⌉.toNat)).map (fun i : ℕ => start + (i : ℚ) * step)

/-! ### Timeline builder (`replay_clock.build_global_timeline`) -/

/-- A float value as seen by the timeline builder: an exact rational
together with a finiteness flag (`finite = false` models `nan`/`inf`,
which `np.isfinite` rejects). -/
structure Fl where
  val : ℚ
  finite : Bool
deriving DecidableEq, Repr

/-- The per-vehicle filter of `build_global_timeline`: skip a time array
with fewer than 2 samples, skip non-finite endpoints, skip `t1 <= t0`;
otherwise yield the `(start, end)` range. -/
def usableRange (ts : List Fl) : Option (ℚ × ℚ) :=
  if ts.length < 2 then none
  else
    match ts.head?, ts.getLast? with
    | some a, some b =>
      if !a.finite || !b.finite then none
      else if b.val ≤ a.val then none
      else some (a.val, b.val)
    | _, _ => none

/-- Result triple of `build_global_timeline`. -/
structure TimelineResult where
  timeline : List ℚ
  t0 : ℚ
  t1 : ℚ
deriving DecidableEq, Repr

/-- `build_global_timeline`: collect the usable `(start, end)` ranges of
all vehicles (in input order), fail if none, take the union window
`t0 = min(starts)`, `t1 = max(ends)`, and build
`np.arange(0, duration + dt, dt)` with `dt = 1/fps` (a degenerate
`duration <= 0` yields the single frame `[0]`). -/
def buildGlobalTimeline (allTimes : List (List Fl)) (fps : ℕ) :
    Except String TimelineResult :=
  let ranges := allTimes.filterMap usableRange
  match ranges with
  | [] => Except.error "No valid driver telemetry ranges found to build timeline."
  | r :: rs =>
    let t0 := (rs.map Prod.fst).foldl min r.1
    let t1 := (rs.map Prod.snd).foldl max r.2
    let dt : ℚ := 1 / (fps : ℚ)
    let duration := t1 - t0
    if duration ≤ 0 then Except.ok ⟨[0], t0, t1⟩
    else Except.ok ⟨npArange 0 (duration + dt) dt, t0, t1⟩

/-- The timeline the specification's words predict: `timeline[i] = i * (1/fps)`
for `i = 0 .. floor((t1 - t0) * fps)`. Stated from the spec, for
comparison with `buildGlobalTimeline`. -/
def claimTimeline (t0 t1 : ℚ) (fps : ℕ) : List ℚ :=
  (List.range ((⌊(t1 - t0) * (fps : ℚ)⌋).toNat + 1)).map (fun i : ℕ => (i : ℚ) * (1 / (fps : ℚ)))

/-! ### Resampler (`replay_clock.resample_all_drivers`) -/

/-- One vehicle's stitched telemetry: the channel arrays produced by the
telemetry stitcher, each aligned with `time`. -/
structure VehicleSeries where
  time : List ℚ
  x : List ℚ
  y : List ℚ
  distance : List ℚ
  speed : List ℚ
  gear : List ℚ
  drs : List ℚ
  lap : List ℚ
  throttle : List ℚ
  brake : List ℚ
deriving DecidableEq, Repr

/-- One vehicle's resampled telemetry, aligned 1:1 with the timeline.
`gear`, `drs`, `lap` have been cast with `astype(np.int16)`. -/
structure ResampledSeries where
  x : List ℚ
  y : List ℚ
  distance : List ℚ
  speed : List ℚ
  throttle : List ℚ
  brake : List ℚ
  gear : List ℚ
  drs : List ℚ
  lap : List ℚ
  time_abs : List ℚ
  time : List ℚ
deriving DecidableEq, Repr

/-- The per-vehicle body of `resample_all_drivers`: continuous channels by
linear interpolation, discrete channels stepwise then cast to `int16`,
queried at the absolute times `t_abs`. -/
def resampleDriverChannels (tel : VehicleSeries) (tAbs timeline : List ℚ) :
    ResampledSeries where
  x := interpFloat tel.time tel.x tAbs
  y := interpFloat tel.time tel.y tAbs
  distance := interpFloat tel.time tel.distance tAbs
  speed := interpFloat tel.time tel.speed tAbs
  throttle := interpFloat tel.time tel.throttle tAbs
  brake := interpFloat tel.time tel.brake tAbs
  gear := (interpStepwise tel.time tel.gear tAbs).map astypeInt16
  drs := (interpStepwise tel.time tel.drs tAbs).map astypeInt16
  lap := (interpStepwise tel.time tel.lap tAbs).map astypeInt16
  time_abs := tAbs
  time := timeline

/-- `resample_all_drivers`: compute `t_abs = timeline + t0`, skip vehicles
with fewer than 2 samples, and resample every other vehicle. -/
def resampleAllDrivers (all : List (String × VehicleSeries))
    (timeline : List ℚ) (t0 : ℚ) : List (String × ResampledSeries) :=
  let tAbs := timeline.map (· + t0)
  all.filterMap (fun dt =>
    if dt.2.time.length < 2 then none
    else some (dt.1, resampleDriverChannels dt.2 tAbs timeline))

/-- Names of the continuous channels. -/
inductive ContCh | x | y | distance | speed | throttle | brake
deriving DecidableEq, Repr

/-- Raw continuous channel accessor. -/
def rawCont (tel : VehicleSeries) : ContCh → List ℚ
  | .x => tel.x
  | .y => tel.y
  | .distance => tel.distance
  | .speed => tel.speed
  | .throttle => tel.throttle
  | .brake => tel.brake

/-- Resampled continuous channel accessor. -/
def resCont (rs : ResampledSeries) : ContCh → List ℚ
  | .x => rs.x
  | .y => rs.y
  | .distance => rs.distance
  | .speed => rs.speed
  | .throttle => rs.throttle
  | .brake => rs.brake

/-- Names of the discrete channels. -/
inductive DiscCh | gear | drs | lap
deriving DecidableEq, Repr

/-- Raw discrete channel accessor. -/
def rawDisc (tel : VehicleSeries) : DiscCh → List ℚ
  | .gear => tel.gear
  | .drs => tel.drs
  | .lap => tel.lap

/-- Resampled discrete channel accessor. -/
def resDisc (rs : ResampledSeries) : DiscCh → List ℚ
  | .gear => rs.gear
  | .drs => rs.drs
  | .lap => rs.lap

/-! ### Telemetry stitcher (`telemetry.extract_driver_telemetry`) -/

/-- One raw telemetry row of one lap (the lap-number column is attached
by the stitcher from the lap's metadata, via `np.full`). -/
structure TelRow where
  time : ℚ
  x : ℚ
  y : ℚ
  distance : ℚ
  speed : ℚ
  gear : ℚ
  drs : ℚ
  throttle : ℚ
  brake : ℚ
deriving DecidableEq, Repr

/-- One stitched sample: a telemetry row plus the lap-number column. -/
structure Sample extends TelRow where
  lap : ℚ
deriving DecidableEq, Repr

/-- One input lap: its lap number and its telemetry rows. -/
structure LapInput where
  lapNumber : ℚ
  tel : List TelRow
deriving DecidableEq, Repr

/-- Collect one vehicle's samples across its laps: a lap whose telemetry
is empty is skipped; each surviving row carries its lap's number. -/
def collectLaps (laps : List LapInput) : List Sample :=
  laps.foldr (fun lp acc =>
    if lp.tel.isEmpty then acc
    else lp.tel.map (fun r => { r with lap := lp.lapNumber }) ++ acc) []

/-- Assemble the sorted samples into the channel arrays of a
`VehicleSeries` (the dict of numpy arrays the stitcher stores). -/
def samplesToSeries (ss : List Sample) : VehicleSeries where
  time := ss.map (·.time)
  x := ss.map (·.x)
  y := ss.map (·.y)
  distance := ss.map (·.distance)
  speed := ss.map (·.speed)
  gear := ss.map (·.gear)
  drs := ss.map (·.drs)
  lap := ss.map (·.lap)
  throttle := ss.map (·.throttle)
  brake := ss.map (·.brake)

/-- The strictly-non-decreasing sanity check on the stitched time array:
`(np.diff(time) < 0).any()`. -/
def timeOrderFails (ts : List ℚ) : Bool :=
  (ts.zip ts.tail).any (fun p => p.2 < p.1)

/-- `extract_driver_telemetry`: per vehicle, skip a vehicle with no laps
or no collected telemetry, sort the concatenated samples by time
(`np.argsort` on the time channel), then run the time-ordering sanity
check; its `raise ValueError` is not caught inside the driver loop, so a
failing check aborts the whole extraction. -/
def extractDriverTelemetry (session : List (String × List LapInput)) :
    Except String (List (String × VehicleSeries)) :=
  session.foldr
    (fun dl acc =>
      match acc with
      | Except.error e => Except.error e
      | Except.ok rest =>
        if dl.2.isEmpty then Except.ok rest
        else
          let samples := collectLaps dl.2
          if samples.isEmpty then Except.ok rest
          else
            let sorted := sortStable (fun a b => a.time < b.time) samples
            let series := samplesToSeries sorted
            if timeOrderFails series.time then
              Except.error ("Time ordering failed for " ++ dl.1)
            else
              Except.ok ((dl.1, series) :: rest))
    (Except.ok [])

/-! ### Frame synthesizer (`frames.build_frames`) -/

/-- `_norm_lap_distance`: keep a distance within `[0, lap_length)`;
a non-positive `lap_length` disables the normalization. Python float
`%` with a positive divisor is `d - L * floor(d / L)`. -/
def normLapDistance (dist lapLength : ℚ) : ℚ :=
  if lapLength ≤ 0 then dist else dist - lapLength * ⌊dist / lapLength⌋

/-- `lap_i = int(lap_by[d][i])`, clamped to at least 1. -/
def lapClamped (rs : ResampledSeries) (i : ℕ) : ℤ :=
  let l := ratTrunc (rs.lap.getD i 0)
  if l < 1 then 1 else l

/-- Per-frame progress of one vehicle:
`(lap_i - 1) * lap_length + _norm_lap_distance(dist_i, lap_length)`. -/
def progressOf (rs : ResampledSeries) (lapLength : ℚ) (i : ℕ) : ℚ :=
  ((lapClamped rs i - 1 : ℤ) : ℚ) * lapLength +
    normLapDistance (rs.distance.getD i 0) lapLength

/-- The `progress_list` of frame `i`, in input (dict) order. -/
def progressListAt (r : List (String × ResampledSeries)) (lapLength : ℚ)
    (i : ℕ) : List (String × ℚ) :=
  r.map (fun p => (p.1, progressOf p.2 lapLength i))

/-- `progress_list.sort(key=lambda x: x[1], reverse=True)`: stable sort,
leader first. -/
def sortedProgressAt (r : List (String × ResampledSeries)) (lapLength : ℚ)
    (i : ℕ) : List (String × ℚ) :=
  sortStable (fun a b => b.2 < a.2) (progressListAt r lapLength i)

/-- `positions = {drv: pos for pos, (drv, _) in enumerate(progress_list, start=1)}`. -/
def positionsAt (r : List (String × ResampledSeries)) (lapLength : ℚ)
    (i : ℕ) : List (String × ℕ) :=
  ((sortedProgressAt r lapLength i).enumFrom 1).map (fun p => (p.2.1, p.1))

/-- One reported overtake. -/
structure PositionChange where
  driver : String
  from_pos : ℕ
  to_pos : ℕ
  passed : Option String
  t : ℚ
deriving DecidableEq, Repr

/-- Overtake detection of frame `i`: empty when there is no previous
frame; otherwise, for each vehicle that improved its position, find the
first vehicle now immediately behind whose own prior position was better
than the improving vehicle's prior position. -/
def positionChangesAt (drivers : List String)
    (positions prev : List (String × ℕ)) (t : ℚ) : List PositionChange :=
  if prev.isEmpty then []
  else
    drivers.foldr (fun d acc =>
      let curr := (positions.lookup d).getD 0
      let prevPos := (prev.lookup d).getD curr
      if curr < prevPos then
        let passed := (positions.find? (fun op =>
          op.1 != d && op.2 == curr + 1 &&
            decide ((prev.lookup op.1).getD 0 < prevPos))).map (·.1)
        ⟨d, prevPos, curr, passed, t⟩ :: acc
      else acc) []

/-- One recorded lap completion, as collected from `driver_sectors`. -/
structure Completion where
  s3_time : ℚ
  driver : String
  lap_time : ℚ
  lap_num : ℤ
deriving DecidableEq, Repr

/-- The sector-table entry of one `(driver, lap)` pair; only the fields
the fastest-lap event builder reads are modelled. -/
structure SectorEntry where
  lap_time : Option ℚ
  s3_time : Option ℚ
deriving DecidableEq, Repr

/-- Collect `all_lap_completions`: every `(s3_time, drv, lap_time, lap_num)`
with both fields recorded and `lap_time > 0`, in table iteration order. -/
def allLapCompletions (driverSectors : List (String × List (ℤ × SectorEntry))) :
    List Completion :=
  driverSectors.foldr (fun dl acc =>
    dl.2.foldr (fun le acc2 =>
      match le.2.lap_time, le.2.s3_time with
      | some lt, some s3 =>
        if 0 < lt then ⟨s3, dl.1, lt, le.1⟩ :: acc2 else acc2
      | _, _ => acc2) [] ++ acc) []

/-- One fastest-lap event. -/
structure FastestLapEvent where
  time : ℚ
  driver : String
  lap_time : ℚ
  lap_num : ℤ
deriving DecidableEq, Repr

/-- `lap_time < current_fastest`, where `current_fastest` starts at
`float("inf")` (modelled as `none`). -/
def improveBetter (cf : Option ℚ) (lapTime : ℚ) : Bool :=
  match cf with
  | none => true
  | some b => decide (lapTime < b)

/-- The improvement filter over the time-sorted completions: each
completion strictly below the running fastest becomes an event. -/
def improveScan : Option ℚ → List Completion → List FastestLapEvent
  | _, [] => []
  | cf, c :: rest =>
    if improveBetter cf c.lap_time then
      ⟨c.s3_time, c.driver, c.lap_time, c.lap_num⟩ ::
        improveScan (some c.lap_time) rest
    else improveScan cf rest

/-- `fastest_lap_events`: sort all completions by completion time
(stable), then keep the strict improvements. -/
def buildFastestLapEvents
    (driverSectors : List (String × List (ℤ × SectorEntry))) :
    List FastestLapEvent :=
  improveScan none
    (sortStable (fun a b => a.s3_time < b.s3_time)
      (allLapCompletions driverSectors))

/-- The per-frame cursor loop over `fastest_lap_events`: remember the
last event at or before `t`, stop at the first later one. -/
def scanFL (t : ℚ) : List FastestLapEvent → Option FastestLapEvent →
    Option FastestLapEvent
  | [], acc => acc
  | e :: rest, acc => if e.time ≤ t then scanFL t rest (some e) else acc

/-- The `fastest_lap` field of one frame. -/
structure FastestLapInfo where
  driver : Option String
  time : Option ℚ
  lap_num : Option ℤ
  is_new : Bool
deriving DecidableEq, Repr

/-- The fastest-lap banner of the frame at time `t`: the last event at or
before `t`, marked new when it was set within the last 5 seconds. -/
def fastestLapInfoAt (events : List FastestLapEvent) (t : ℚ) : FastestLapInfo :=
  match scanFL t events none with
  | none => ⟨none, none, none, false⟩
  | some e =>
    ⟨some e.driver, some e.lap_time, some e.lap_num,
      decide (0 ≤ t - e.time) && decide (t - e.time ≤ 5)⟩

/-- One vehicle's state in one frame (the side-table fields — compound,
sector times, stint, tyre life, pit count — are not modelled; no claim
reads them). -/
structure DriverState where
  x : ℚ
  y : ℚ
  speed : ℚ
  distance : ℚ
  lap : ℤ
  gear : ℤ
  drs : ℤ
  progress : ℚ
  pos : ℕ
  throttle : ℚ
  brake : ℚ
deriving DecidableEq, Repr

/-- One synchronized frame (weather, track status, race messages and
overall bests are not modelled; no claim reads them). -/
structure Frame where
  t : ℚ
  drivers : List (String × DriverState)
  fastest_lap : FastestLapInfo
  position_changes : List PositionChange
deriving DecidableEq, Repr

/-- Assemble the frame of index `i` at time `t` from the carried previous
positions. -/
def mkFrame (r : List (String × ResampledSeries)) (lapLength : ℚ)
    (events : List FastestLapEvent) (prev : List (String × ℕ))
    (i : ℕ) (t : ℚ) : Frame :=
  let progList := progressListAt r lapLength i
  let positions := positionsAt r lapLength i
  let changes := positionChangesAt (r.map (·.1)) positions prev t
  let states := r.map (fun p =>
    (p.1,
      { x := p.2.x.getD i 0
        y := p.2.y.getD i 0
        speed := p.2.speed.getD i 0
        distance := p.2.distance.getD i 0
        lap := lapClamped p.2 i
        gear := ratTrunc (p.2.gear.getD i 0)
        drs := ratTrunc (p.2.drs.getD i 0)
        progress := (progList.lookup p.1).getD 0
        pos := (positions.lookup p.1).getD 0
        throttle := p.2.throttle.getD i 0
        brake := p.2.brake.getD i 0 : DriverState }))
  ⟨t, states, fastestLapInfoAt events t, changes⟩

/-- The forward pass of `build_frames`: one frame per timeline index
(`t = timeline[i]` walked in order), threading the previous frame's
positions. -/
def framesLoop (r : List (String × ResampledSeries)) (lapLength : ℚ)
    (events : List FastestLapEvent) :
    List ℚ → ℕ → List (String × ℕ) → List Frame
  | [], _, _ => []
  | t :: rest, i, prev =>
    mkFrame r lapLength events prev i t ::
      framesLoop r lapLength events rest (i + 1) (positionsAt r lapLength i)

/-- `build_frames` restricted to the inputs the claims exercise
(`tyre_map`, `weather_data`, `race_control` and `pit_data` left at their
`None` defaults; `sector_data`'s first component is `driverSectors`). -/
def buildFrames (r : List (String × ResampledSeries)) (tl : List ℚ)
    (lapLength : ℚ)
    (driverSectors : List (String × List (ℤ × SectorEntry))) : List Frame :=
  framesLoop r lapLength (buildFastestLapEvents driverSectors) tl 0 []

/-- The frame of absolute index `i`: what the forward pass produces there
(`prev` is empty at `i = 0` and the previous frame's positions after). -/
def frameAt (r : List (String × ResampledSeries)) (lapLength : ℚ)
    (events : List FastestLapEvent) (tl : List ℚ) (i : ℕ) : Frame :=
  mkFrame r lapLength events
    (if i = 0 then [] else positionsAt r lapLength (i - 1)) i (tl.getD i 0)

/-- The position recorded for vehicle `d` in frame `f`. -/
def framePos (f : Frame) (d : String) : ℕ :=
  ((f.drivers.lookup d).map (fun s => s.pos)).getD 0

/-- The progress recorded for vehicle `d` in frame `f`. -/
def frameProgress (f : Frame) (d : String) : ℚ :=
  ((f.drivers.lookup d).map (fun s => s.progress)).getD 0

/-- The raw distance recorded for vehicle `d` in frame `f`. -/
def frameDist (f : Frame) (d : String) : ℚ :=
  ((f.drivers.lookup d).map (fun s => s.distance)).getD 0

/-- A resampled series with given `lap` and `distance` channels and zeros
elsewhere; used to exercise the frame synthesizer on concrete inputs. -/
def constRS (lap dist : List ℚ) : ResampledSeries :=
  ⟨List.replicate lap.length 0, List.replicate lap.length 0, dist,
    List.replicate lap.length 0, List.replicate lap.length 0,
    List.replicate lap.length 0, List.replicate lap.length 0,
    List.replicate lap.length 0, lap, List.replicate lap.length 0,
    List.replicate lap.length 0⟩

/-- A two-sample stitched vehicle series used to exercise the resampler
on concrete inputs. -/
def exampleTel : VehicleSeries :=
  ⟨[0, 1], [10, 30], [5, 7], [100, 200], [50, 60], [3, 4], [0, 1], [1, 1],
    [0, 100], [0, 1]⟩

/-! ### Lemmas about the stable sort -/

section SortLemmas

variable {α : Type _} (lt : α → α → Bool)

theorem stableInsert_perm (a : α) (l : List α) :
    stableInsert lt a l ~ a :: l := by
  induction l with
  | nil => rfl
  | cons b l ih =>
    simp only [stableInsert]
    by_cases h : lt a b
    · simp [h]
    · simp only [h, if_false]
      exact (ih.cons b).trans (List.Perm.swap a b l)

theorem foldl_stableInsert_perm (l : List α) : ∀ acc : List α,
    l.foldl (fun acc a => stableInsert lt a acc) acc ~ acc ++ l := by
  induction l with
  | nil => intro acc; simp
  | cons a l ih =>
    intro acc
    simp only [List.foldl_cons]
    refine (ih (stableInsert lt a acc)).trans ?_
    refine (((stableInsert_perm lt a acc)).append_right l).trans ?_
    simpa using (@List.perm_middle _ a acc l).symm

theorem sortStable_perm (l : List α) : sortStable lt l ~ l := by
  simpa [sortStable] using foldl_stableInsert_perm lt l []

theorem mem_stableInsert (a x : α) (l : List α) :
    x ∈ stableInsert lt a l ↔ x = a ∨ x ∈ l := by
  rw [(stableInsert_perm lt a l).mem_iff, List.mem_cons]

theorem stableInsert_pairwise
    (hAsym : ∀ a b, lt a b = true → lt b a = false)
    (hNegTrans : ∀ a b c, lt b a = false → lt c b = false → lt c a = false)
    {a : α} {l : List α}
    (hl : l.Pairwise (fun x y => lt y x = false)) :
    (stableInsert lt a l).Pairwise (fun x y => lt y x = false) := by
  induction l with
  | nil => simp [stableInsert]
  | cons b l ih =>
    rcases List.pairwise_cons.mp hl with ⟨hb, hl2⟩
    simp only [stableInsert]
    by_cases h : lt a b
    · simp only [h, if_true]
      refine List.pairwise_cons.mpr ⟨?_, hl⟩
      intro x hx
      rcases List.mem_cons.mp hx with rfl | hx2
      · exact hAsym a x h
      · exact hNegTrans a b x (hAsym a b h) (hb x hx2)
    · simp only [h, if_false]
      refine List.pairwise_cons.mpr ⟨?_, ih hl2⟩
      intro x hx
      rcases (mem_stableInsert lt a x l).mp hx with rfl | hx2
      · simpa using h
      · exact hb x hx2

theorem foldl_stableInsert_pairwise
    (hAsym : ∀ a b, lt a b = true → lt b a = false)
    (hNegTrans : ∀ a b c, lt b a = false → lt c b = false → lt c a = false)
    (l : List α) : ∀ acc : List α,
    acc.Pairwise (fun x y => lt y x = false) →
    (l.foldl (fun acc a => stableInsert lt a acc) acc).Pairwise
      (fun x y => lt y x = false) := by
  induction l with
  | nil => intro acc h; simpa using h
  | cons a l ih =>
    intro acc h
    simp only [List.foldl_cons]
    exact ih _ (stableInsert_pairwise lt hAsym hNegTrans h)

theorem sortStable_pairwise
    (hAsym : ∀ a b, lt a b = true → lt b a = false)
    (hNegTrans : ∀ a b c, lt b a = false → lt c b = false → lt c a = false)
    (l : List α) :
    (sortStable lt l).Pairwise (fun x y => lt y x = false) := by
  exact foldl_stableInsert_pairwise lt hAsym hNegTrans l [] (by simp)

theorem sublist_stableInsert (a : α) (l : List α) :
    l <+ stableInsert lt a l := by
  induction l with
  | nil => simp [stableInsert]
  | cons b l ih =>
    simp only [stableInsert]
    by_cases h : lt a b
    · simp only [h, if_true]
      exact List.Sublist.cons a (List.Sublist.refl _)
    · simp only [h, if_false]
      exact List.Sublist.cons₂ b ih

theorem stableInsert_after
    (hNegTrans : ∀ a b c, lt b a = false → lt c b = false → lt c a = false)
    {a x : α} {l : List α}
    (hp : l.Pairwise (fun u v => lt v u = false)) (hx : x ∈ l)
    (hax : lt a x = false) :
    [x, a] <+ stableInsert lt a l := by
  induction l with
  | nil => cases hx
  | cons b l ih =>
    rcases List.pairwise_cons.mp hp with ⟨hb, hl2⟩
    rcases List.mem_cons.mp hx with rfl | hx2
    · simp only [stableInsert, hax, if_false]
      refine List.Sublist.cons₂ x ?_
      exact List.singleton_sublist.mpr
        ((mem_stableInsert lt a a l).mpr (Or.inl rfl))
    · have haB : lt a b = false := hNegTrans b x a (hb x hx2) hax
      simp only [stableInsert, haB, if_false]
      exact List.Sublist.cons b (ih hl2 hx2)

theorem mem_foldl_stableInsert {x : α} (l : List α) : ∀ acc : List α,
    x ∈ acc → x ∈ l.foldl (fun acc a => stableInsert lt a acc) acc := by
  induction l with
  | nil => intro acc h; simpa using h
  | cons a l ih =>
    intro acc h
    simp only [List.foldl_cons]
    exact ih _ ((mem_stableInsert lt a x acc).mpr (Or.inr h))

theorem sublist_foldl_stableInsert {s : List α} (l : List α) : ∀ acc : List α,
    s <+ acc → s <+ l.foldl (fun acc a => stableInsert lt a acc) acc := by
  induction l with
  | nil => intro acc h; simpa using h
  | cons a l ih =>
    intro acc h
    simp only [List.foldl_cons]
    exact ih _ (h.trans (sublist_stableInsert lt a acc))

theorem foldl_stableInsert_stable
    (hAsym : ∀ a b, lt a b = true → lt b a = false)
    (hNegTrans : ∀ a b c, lt b a = false → lt c b = false → lt c a = false)
    {x y : α} (l : List α) : ∀ acc : List α,
    acc.Pairwise (fun u v => lt v u = false) →
    ([x, y] <+ acc ∨ (x ∈ acc ∧ [y] <+ l) ∨ [x, y] <+ l) →
    lt y x = false →
    [x, y] <+ l.foldl (fun acc a => stableInsert lt a acc) acc := by
  induction l with
  | nil =>
    intro acc hp hinv hyx
    rcases hinv with h | ⟨_, h⟩ | h
    · simpa using h
    · cases h
    · cases h
  | cons a l ih =>
    intro acc hp hinv hyx
    simp only [List.foldl_cons]
    have hp2 : (stableInsert lt a acc).Pairwise (fun u v => lt v u = false) :=
      stableInsert_pairwise lt hAsym hNegTrans hp
    rcases hinv with h | ⟨hx, h⟩ | h
    · exact ih _ hp2 (Or.inl (h.trans (sublist_stableInsert lt a acc))) hyx
    · cases h with
      | cons _ h2 =>
        exact ih _ hp2 (Or.inr (Or.inl
          ⟨(mem_stableInsert lt a x acc).mpr (Or.inr hx), h2⟩)) hyx
      | cons₂ _ h2 =>
        exact ih _ hp2 (Or.inl (stableInsert_after lt hNegTrans hp hx hyx)) hyx
    · cases h with
      | cons _ h2 => exact ih _ hp2 (Or.inr (Or.inr h2)) hyx
      | cons₂ _ h2 =>
        exact ih _ hp2 (Or.inr (Or.inl
          ⟨(mem_stableInsert lt x x acc).mpr (Or.inl rfl), h2⟩)) hyx

theorem sortStable_stable
    (hAsym : ∀ a b, lt a b = true → lt b a = false)
    (hNegTrans : ∀ a b c, lt b a = false → lt c b = false → lt c a = false)
    {x y : α} {l : List α} (h : [x, y] <+ l)
    (hyx : lt y x = false) : [x, y] <+ sortStable lt l := by
  exact foldl_stableInsert_stable lt hAsym hNegTrans l []
    (by simp) (Or.inr (Or.inr h)) hyx

end SortLemmas

/-! ### Lemmas about `searchsorted`, `min`/`max` folds and interpolation -/

theorem sorted_le_of_lt_countP {xs : List ℚ} (hs : xs.Pairwise (· ≤ ·))
    {x : ℚ} {k : ℕ} (hk : k < xs.length)
    (hcnt : k < searchsortedRight xs x) : xs[k] ≤ x := by
  induction xs generalizing k with
  | nil => cases hk
  | cons a tl ih =>
    rcases List.pairwise_cons.mp hs with ⟨ha, htl⟩
    by_cases hax : a ≤ x
    · cases k with
      | zero => simpa using hax
      | succ k =>
        simp only [List.getElem_cons_succ]
        refine ih htl (by simpa using hk) ?_
        have : searchsortedRight (a :: tl) x = searchsortedRight tl x + 1 := by
          simp [searchsortedRight, List.countP_cons, hax]
        omega
    · exfalso
      have hz : searchsortedRight tl x = 0 := by
        simp only [searchsortedRight, List.countP_eq_zero]
        intro b hb
        simp only [decide_eq_true_eq]
        intro hbx
        exact hax (le_trans (ha b hb) hbx)
      have hz2 : searchsortedRight (a :: tl) x = 0 := by
        simp only [searchsortedRight, List.countP_cons] at hz ⊢
        simp [hz, hax]
      omega

theorem sorted_gt_of_countP_le {xs : List ℚ} (hs : xs.Pairwise (· ≤ ·))
    {x : ℚ} {k : ℕ} (hk : k < xs.length)
    (hcnt : searchsortedRight xs x ≤ k) : x < xs[k] := by
  induction xs generalizing k with
  | nil => cases hk
  | cons a tl ih =>
    rcases List.pairwise_cons.mp hs with ⟨ha, htl⟩
    by_cases hax : a ≤ x
    · have hcc : searchsortedRight (a :: tl) x = searchsortedRight tl x + 1 := by
        simp [searchsortedRight, List.countP_cons, hax]
      cases k with
      | zero => omega
      | succ k =>
        simp only [List.getElem_cons_succ]
        exact ih htl (by simpa using hk) (by omega)
    · have hxa : x < a := lt_of_not_le hax
      cases k with
      | zero => simpa using hxa
      | succ k =>
        simp only [List.getElem_cons_succ]
        have hk2 : k < tl.length := by simpa using hk
        have hmem : tl[k] ∈ tl := List.getElem_mem hk2
        exact lt_of_lt_of_le hxa (ha _ hmem)

theorem searchsortedRight_le_length (xs : List ℚ) (x : ℚ) :
    searchsortedRight xs x ≤ xs.length :=
  List.countP_le_length _

theorem foldl_min_le_init (l : List ℚ) : ∀ a : ℚ, l.foldl min a ≤ a := by
  induction l with
  | nil => intro a; simp
  | cons b l ih =>
    intro a
    simp only [List.foldl_cons]
    exact le_trans (ih (min a b)) (min_le_left a b)

theorem foldl_min_le_mem (l : List ℚ) : ∀ (a b : ℚ), b ∈ l → l.foldl min a ≤ b := by
  induction l with
  | nil => intro a b h; cases h
  | cons c l ih =>
    intro a b h
    simp only [List.foldl_cons]
    rcases List.mem_cons.mp h with rfl | h2
    · exact le_trans (foldl_min_le_init l _) (min_le_right a b)
    · exact ih _ b h2

theorem init_le_foldl_max (l : List ℚ) : ∀ a : ℚ, a ≤ l.foldl max a := by
  induction l with
  | nil => intro a; simp
  | cons b l ih =>
    intro a
    simp only [List.foldl_cons]
    exact le_trans (le_max_left a b) (ih (max a b))

theorem mem_le_foldl_max (l : List ℚ) : ∀ (a b : ℚ), b ∈ l → b ≤ l.foldl max a := by
  induction l with
  | nil => intro a b h; cases h
  | cons c l ih =>
    intro a b h
    simp only [List.foldl_cons]
    rcases List.mem_cons.mp h with rfl | h2
    · exact le_trans (le_max_right a b) (init_le_foldl_max l _)
    · exact ih _ b h2

theorem listMin_le {l : List ℚ} {b : ℚ} (hb : b ∈ l) : listMin l ≤ b := by
  cases l with
  | nil => cases hb
  | cons a l =>
    simp only [listMin]
    rcases List.mem_cons.mp hb with rfl | h2
    · exact foldl_min_le_init l b
    · exact foldl_min_le_mem l a b h2

theorem le_listMax {l : List ℚ} {b : ℚ} (hb : b ∈ l) : b ≤ listMax l := by
  cases l with
  | nil => cases hb
  | cons a l =>
    simp only [listMax]
    rcases List.mem_cons.mp hb with rfl | h2
    · exact init_le_foldl_max l b
    · exact mem_le_foldl_max l a b h2

theorem getD_mem {l : List ℚ} {k : ℕ} (hk : k < l.length) : l.getD k 0 ∈ l := by
  rw [List.getD_eq_getElem l 0 hk]
  exact List.getElem_mem hk

/-- Any value produced by `npInterpOne` on a sorted source is a source
sample or a convex combination of two adjacent source samples, hence lies
within the channel's recorded min/max. -/
theorem npInterpOne_bounds {xp fp : List ℚ} (hs : xp.Pairwise (· ≤ ·))
    (hlen : fp.length = xp.length) (hne : xp ≠ []) (x : ℚ) :
    listMin fp ≤ npInterpOne xp fp x ∧ npInterpOne xp fp x ≤ listMax fp := by
  have hxlen : 0 < xp.length := List.length_pos.mpr hne
  have hflen : 0 < fp.length := hlen ▸ hxlen
  unfold npInterpOne
  by_cases h1 : ((searchsortedRight xp x : ℤ) - 1) < 0
  · simp only [h1, if_true]
    have hm := @getD_mem fp 0 hflen
    exact ⟨listMin_le hm, le_listMax hm⟩
  · simp only [h1, if_false]
    by_cases h2 : ((xp.length : ℤ) - 1) ≤ ((searchsortedRight xp x : ℤ) - 1)
    · simp only [h2, if_true]
      have hklt : xp.length - 1 < fp.length := by omega
      have hm := getD_mem hklt
      exact ⟨listMin_le hm, le_listMax hm⟩
    · simp only [h2, if_false]
      have hc1 : 1 ≤ searchsortedRight xp x := by omega
      have hclt : searchsortedRight xp x < xp.length := by omega
      have hj1 : searchsortedRight xp x - 1 < fp.length := by omega
      have hj2 : searchsortedRight xp x < fp.length := by omega
      by_cases h3 : xp.getD (searchsortedRight xp x - 1) 0 = x
      · simp only [h3, if_true]
        have hm := getD_mem hj1
        exact ⟨listMin_le hm, le_listMax hm⟩
      · simp only [h3, if_false]
        have hj1x : searchsortedRight xp x - 1 < xp.length := by omega
        have hxj_le : xp.getD (searchsortedRight xp x - 1) 0 ≤ x := by
          rw [List.getD_eq_getElem xp 0 hj1x]
          exact sorted_le_of_lt_countP hs hj1x (by omega)
        have hxj_lt : xp.getD (searchsortedRight xp x - 1) 0 < x :=
          lt_of_le_of_ne hxj_le h3
        have hxj1_gt : x < xp.getD (searchsortedRight xp x) 0 := by
          rw [List.getD_eq_getElem xp 0 hclt]
          exact sorted_gt_of_countP_le hs hclt (le_refl _)
        set xj := xp.getD (searchsortedRight xp x - 1) 0
        set xj1 := xp.getD (searchsortedRight xp x) 0
        set fj := fp.getD (searchsortedRight xp x - 1) 0
        set fj1 := fp.getD (searchsortedRight xp x) 0
        have hden : 0 < xj1 - xj := by linarith
        have hth0 : 0 ≤ (x - xj) / (xj1 - xj) :=
          div_nonneg (by linarith) (le_of_lt hden)
        have hth1 : (x - xj) / (xj1 - xj) ≤ 1 :=
          (div_le_one hden).mpr (by linarith)
        have hfj_lo : listMin fp ≤ fj := listMin_le (getD_mem hj1)
        have hfj1_lo : listMin fp ≤ fj1 := listMin_le (getD_mem hj2)
        have hfj_hi : fj ≤ listMax fp := le_listMax (getD_mem hj1)
        have hfj1_hi : fj1 ≤ listMax fp := le_listMax (getD_mem hj2)
        have hval : fj + (fj1 - fj) * (x - xj) / (xj1 - xj) =
            fj + (fj1 - fj) * ((x - xj) / (xj1 - xj)) := by
          ring
        rw [hval]
        constructor
        · nlinarith [mul_nonneg (sub_nonneg.mpr hfj1_lo) hth0,
            mul_nonneg (sub_nonneg.mpr hfj_lo) (sub_nonneg.mpr hth1)]
        · nlinarith [mul_nonneg (sub_nonneg.mpr hfj1_hi) hth0,
            mul_nonneg (sub_nonneg.mpr hfj_hi) (sub_nonneg.mpr hth1)]

/-- A query strictly before the first source timestamp yields the first
sample's value. -/
theorem npInterpOne_before {xp fp : List ℚ} (hs : xp.Pairwise (· ≤ ·))
    (hne : xp ≠ []) {x : ℚ} (hx : x < xp.getD 0 0) :
    npInterpOne xp fp x = fp.getD 0 0 := by
  have hxlen : 0 < xp.length := List.length_pos.mpr hne
  have hcnt : searchsortedRight xp x = 0 := by
    simp only [searchsortedRight, List.countP_eq_zero]
    intro b hb
    simp only [decide_eq_true_eq]
    rcases List.mem_iff_getElem.mp hb with ⟨k, hk, rfl⟩
    intro hbx
    rcases Nat.eq_zero_or_pos k with rfl | hkpos
    · rw [List.getD_eq_getElem xp 0 hxlen] at hx
      exact absurd hbx (not_le.mpr hx)
    · have h0k : xp[0] ≤ xp[k] :=
        List.pairwise_iff_getElem.mp hs 0 k hxlen hk hkpos
      rw [List.getD_eq_getElem xp 0 hxlen] at hx
      exact absurd (le_trans h0k hbx) (not_le.mpr hx)
  unfold npInterpOne
  rw [hcnt]
  norm_num

/-- A query strictly after the last source timestamp yields the last
sample's value. -/
theorem npInterpOne_after {xp fp : List ℚ} (hs : xp.Pairwise (· ≤ ·))
    (hne : xp ≠ []) {x : ℚ} (hx : xp.getD (xp.length - 1) 0 < x) :
    npInterpOne xp fp x = fp.getD (xp.length - 1) 0 := by
  have hxlen : 0 < xp.length := List.length_pos.mpr hne
  have hlast : xp.length - 1 < xp.length := by omega
  have hcnt : searchsortedRight xp x = xp.length := by
    simp only [searchsortedRight, List.countP_eq_length]
    intro b hb
    simp only [decide_eq_true_eq]
    rcases List.mem_iff_getElem.mp hb with ⟨k, hk, rfl⟩
    rw [List.getD_eq_getElem xp 0 hlast] at hx
    rcases Nat.lt_or_ge k (xp.length - 1) with hklt | hkge
    · have hkl : xp[k] ≤ xp[xp.length - 1] :=
        List.pairwise_iff_getElem.mp hs k (xp.length - 1) hk hlast hklt
      exact le_of_lt (lt_of_le_of_lt hkl hx)
    · have hkeq : k = xp.length - 1 := by omega
      subst hkeq
      exact le_of_lt hx
  unfold npInterpOne
  rw [hcnt]
  have h1 : ¬ (((xp.length : ℤ)) - 1 < 0) := by omega
  have h2 : ((xp.length : ℤ) - 1) ≤ ((xp.length : ℤ)) - 1 := le_refl _
  simp only [h1, if_false, h2, if_true]

theorem sorted_getD_mono {xs : List ℚ} (hs : xs.Pairwise (· ≤ ·)) {m k : ℕ}
    (hmk : m ≤ k) (hk : k < xs.length) : xs.getD m 0 ≤ xs.getD k 0 := by
  have hm : m < xs.length := lt_of_le_of_lt hmk hk
  rw [List.getD_eq_getElem xs 0 hm, List.getD_eq_getElem xs 0 hk]
  rcases eq_or_lt_of_le hmk with rfl | hlt
  · exact le_refl _
  · exact List.pairwise_iff_getElem.mp hs m k hm hk hlt

theorem searchsortedRight_eq_zero {xs : List ℚ} (hs : xs.Pairwise (· ≤ ·))
    (hne : xs ≠ []) {x : ℚ} (hx : x < xs.getD 0 0) :
    searchsortedRight xs x = 0 := by
  have hxlen : 0 < xs.length := List.length_pos.mpr hne
  simp only [searchsortedRight, List.countP_eq_zero]
  intro b hb
  simp only [decide_eq_true_eq]
  rcases List.mem_iff_getElem.mp hb with ⟨k, hk, rfl⟩
  intro hbx
  have h0k : xs.getD 0 0 ≤ xs.getD k 0 := sorted_getD_mono hs (Nat.zero_le k) hk
  rw [List.getD_eq_getElem xs 0 hk] at h0k
  exact absurd (le_trans h0k hbx) (not_le.mpr hx)

/-- The value of `interpStepwiseOne` is always one of the raw samples. -/
theorem interpStepwiseOne_mem {tSrc vSrc : List ℚ} (hv : vSrc ≠ []) (t : ℚ) :
    interpStepwiseOne tSrc vSrc t ∈ vSrc := by
  have hvlen : 0 < vSrc.length := List.length_pos.mpr hv
  unfold interpStepwiseOne
  apply getD_mem
  omega

/-- A query preceding all raw samples clamps to the first sample. -/
theorem interpStepwiseOne_before {tSrc vSrc : List ℚ}
    (hs : tSrc.Pairwise (· ≤ ·)) (hne : tSrc ≠ []) {t : ℚ}
    (hx : t < tSrc.getD 0 0) :
    interpStepwiseOne tSrc vSrc t = vSrc.getD 0 0 := by
  unfold interpStepwiseOne
  rw [searchsortedRight_eq_zero hs hne hx]
  norm_num

/-- When some raw timestamp is at or before `t`, `interpStepwiseOne`
returns the sample at the greatest raw timestamp `<= t`. -/
theorem interpStepwiseOne_greatest {tSrc vSrc : List ℚ}
    (hs : tSrc.Pairwise (· ≤ ·)) (hlen : vSrc.length = tSrc.length) {t : ℚ}
    (h1 : 1 ≤ searchsortedRight tSrc t) :
    interpStepwiseOne tSrc vSrc t = vSrc.getD (searchsortedRight tSrc t - 1) 0 ∧
    tSrc.getD (searchsortedRight tSrc t - 1) 0 ≤ t ∧
    ∀ m, m < tSrc.length → tSrc.getD m 0 ≤ t →
      tSrc.getD m 0 ≤ tSrc.getD (searchsortedRight tSrc t - 1) 0 := by
  have hcn : searchsortedRight tSrc t ≤ tSrc.length :=
    searchsortedRight_le_length tSrc t
  have hc1lt : searchsortedRight tSrc t - 1 < tSrc.length := by omega
  refine ⟨?_, ?_, ?_⟩
  · unfold interpStepwiseOne
    congr 1
    omega
  · rw [List.getD_eq_getElem tSrc 0 hc1lt]
    exact sorted_le_of_lt_countP hs hc1lt (by omega)
  · intro m hm hmt
    rcases Nat.lt_or_ge m (searchsortedRight tSrc t) with hmc | hmc
    · exact sorted_getD_mono hs (by omega) hc1lt
    · exfalso
      have := sorted_gt_of_countP_le hs hm hmc
      rw [List.getD_eq_getElem tSrc 0 hm] at hmt
      exact absurd hmt (not_le.mpr this)

theorem foldl_min_mem (l : List ℚ) : ∀ a : ℚ,
    l.foldl min a = a ∨ l.foldl min a ∈ l := by
  induction l with
  | nil => intro a; simp
  | cons b l ih =>
    intro a
    simp only [List.foldl_cons]
    rcases ih (min a b) with h | h
    · rcases min_cases a b with ⟨hm, _⟩ | ⟨hm, _⟩
      · exact Or.inl (h.trans hm)
      · refine Or.inr ?_
        rw [h, hm]
        exact List.mem_cons_self b l
    · exact Or.inr (List.mem_cons_of_mem b h)

theorem foldl_max_mem (l : List ℚ) : ∀ a : ℚ,
    l.foldl max a = a ∨ l.foldl max a ∈ l := by
  induction l with
  | nil => intro a; simp
  | cons b l ih =>
    intro a
    simp only [List.foldl_cons]
    rcases ih (max a b) with h | h
    · rcases max_cases a b with ⟨hm, _⟩ | ⟨hm, _⟩
      · exact Or.inl (h.trans hm)
      · refine Or.inr ?_
        rw [h, hm]
        exact List.mem_cons_self b l
    · exact Or.inr (List.mem_cons_of_mem b h)

theorem usableRange_lt {ts : List Fl} {p : ℚ × ℚ}
    (h : usableRange ts = some p) : p.1 < p.2 := by
  unfold usableRange at h
  split at h
  · cases h
  · split at h
    next a b _ _ =>
      split at h
      · cases h
      · split at h
        · cases h
        next h2 =>
          cases h
          simpa using lt_of_not_le h2
    · cases h

/-! ### Claim C1 — timeline builder -/

/-- C1 (amended): vehicles whose time range is non-finite or has
`end <= start` (or has fewer than two samples) are discarded; if at least
one vehicle survives, the timeline is `timeline[i] = i * (1/fps)` for
`i = 0 .. ceil((t1 - t0) * fps)` — not `floor` as claimed — with
`t0`/`t1` the min start/max end over survivors, and it is nonempty; if no
vehicle survives the builder fails with the empty-timeline error. -/
theorem claim1_corrected (allTimes : List (List Fl)) (fps : ℕ)
    (r : ℚ × ℚ) (rs : List (ℚ × ℚ)) (hfps : 0 < fps) :
    (allTimes.filterMap usableRange = [] →
      buildGlobalTimeline allTimes fps =
        Except.error "No valid driver telemetry ranges found to build timeline.") ∧
    (allTimes.filterMap usableRange = r :: rs →
      ∃ res, buildGlobalTimeline allTimes fps = Except.ok res ∧
        res.t0 ∈ (r :: rs).map Prod.fst ∧
        (∀ s ∈ (r :: rs).map Prod.fst, res.t0 ≤ s) ∧
        res.t1 ∈ (r :: rs).map Prod.snd ∧
        (∀ e ∈ (r :: rs).map Prod.snd, e ≤ res.t1) ∧
        0 < res.t1 - res.t0 ∧
        res.timeline =
          (List.range ((⌈(res.t1 - res.t0) * (fps : ℚ)⌉).toNat + 1)).map
            (fun i : ℕ => (i : ℚ) * (1 / (fps : ℚ))) ∧
        res.timeline ≠ []) := by
  constructor
  · intro h
    simp only [buildGlobalTimeline, h]
  · intro h
    have hrmem : r ∈ allTimes.filterMap usableRange := by
      rw [h]; exact List.mem_cons_self r rs
    rcases List.mem_filterMap.mp hrmem with ⟨ts, _, hts⟩
    have hrlt : r.1 < r.2 := usableRange_lt hts
    have ht0le : (rs.map Prod.fst).foldl min r.1 ≤ r.1 := foldl_min_le_init _ _
    have ht1ge : r.2 ≤ (rs.map Prod.snd).foldl max r.2 := init_le_foldl_max _ _
    have hdur : 0 <
        (rs.map Prod.snd).foldl max r.2 - (rs.map Prod.fst).foldl min r.1 := by
      linarith
    have hdurne : ¬ ((rs.map Prod.snd).foldl max r.2 -
        (rs.map Prod.fst).foldl min r.1 ≤ 0) := by linarith
    simp only [buildGlobalTimeline, h, hdurne, if_false]
    refine ⟨_, rfl, ?_, ?_, ?_, ?_, hdur, ?_, ?_⟩
    · rcases foldl_min_mem (rs.map Prod.fst) r.1 with he | he
      · simp only [List.map_cons]
        rw [he]
        exact List.mem_cons_self _ _
      · simp only [List.map_cons]
        exact List.mem_cons_of_mem _ he
    · intro s hsm
      simp only [List.map_cons, List.mem_cons] at hsm
      rcases hsm with rfl | hsm
      · exact ht0le
      · exact foldl_min_le_mem _ _ _ hsm
    · rcases foldl_max_mem (rs.map Prod.snd) r.2 with he | he
      · simp only [List.map_cons]
        rw [he]
        exact List.mem_cons_self _ _
      · simp only [List.map_cons]
        exact List.mem_cons_of_mem _ he
    · intro e hem
      simp only [List.map_cons, List.mem_cons] at hem
      rcases hem with rfl | hem
      · exact ht1ge
      · exact mem_le_foldl_max _ _ _ hem
    · have hfne : ((fps : ℚ)) ≠ 0 := by
        exact_mod_cast Nat.pos_iff_ne_zero.mp hfps
      have hfpos : (0 : ℚ) < (fps : ℚ) := by exact_mod_cast hfps
      set dur := (rs.map Prod.snd).foldl max r.2 -
        (rs.map Prod.fst).foldl min r.1 with hdurdef
      have hdt : (dur + 1 / (fps : ℚ)) / (1 / (fps : ℚ)) =
          dur * (fps : ℚ) + 1 := by
        field_simp
      have hceil : ⌈(dur + 1 / (fps : ℚ) - 0) / (1 / (fps : ℚ))⌉ =
          ⌈dur * (fps : ℚ)⌉ + 1 := by
        rw [sub_zero, hdt]
        exact_mod_cast Int.ceil_add_one (dur * (fps : ℚ))
      have hcpos : 0 < ⌈dur * (fps : ℚ)⌉ :=
        Int.ceil_pos.mpr (mul_pos hdur hfpos)
      have htn : (⌈dur * (fps : ℚ)⌉ + 1).toNat = ⌈dur * (fps : ℚ)⌉.toNat + 1 := by
        omega
      simp only [npArange, hceil, htn]
      refine List.map_congr_left ?_
      intro i _
      rw [zero_add]
    · have hfpos : (0 : ℚ) < (fps : ℚ) := by exact_mod_cast hfps
      have hdtpos : (0 : ℚ) < 1 / (fps : ℚ) := by positivity
      have hq : (0 : ℚ) < ((rs.map Prod.snd).foldl max r.2 -
          (rs.map Prod.fst).foldl min r.1 + 1 / (fps : ℚ) - 0) /
            (1 / (fps : ℚ)) := by
        apply div_pos ?_ hdtpos
        linarith
      have hcpos := Int.ceil_pos.mpr hq
      intro hnil
      have hnil2 : npArange 0 ((rs.map Prod.snd).foldl max r.2 -
          (rs.map Prod.fst).foldl min r.1 + 1 / (fps : ℚ))
            (1 / (fps : ℚ)) = [] := hnil
      have hlen : (npArange 0 ((rs.map Prod.snd).foldl max r.2 -
          (rs.map Prod.fst).foldl min r.1 + 1 / (fps : ℚ))
            (1 / (fps : ℚ))).length = 0 := by
        rw [hnil2]; rfl
      simp only [npArange, List.length_map, List.length_range] at hlen
      simp only [sub_zero] at hlen hcpos
      omega

/-- C1 counterexample: with one vehicle covering `[0, 1/10]` and
`fps = 25` (so `(t1 - t0) * fps = 5/2`), the code produces the 4-element
timeline `[0, 1/25, 2/25, 3/25]`, while the claim's
`i = 0 .. floor((t1-t0)*fps)` predicts the 3-element `[0, 1/25, 2/25]`. -/
theorem claim1_counterexample :
    buildGlobalTimeline [[⟨0, true⟩, ⟨1/10, true⟩]] 25 =
      Except.ok ⟨[0, 1/25, 2/25, 3/25], 0, 1/10⟩ ∧
    claimTimeline 0 (1/10) 25 = [0, 1/25, 2/25] ∧
    ([0, 1/25, 2/25, 3/25] : List ℚ) ≠ [0, 1/25, 2/25] := by
  refine ⟨?_, ?_, by simp⟩
  · have h1 : ([[⟨0, true⟩, ⟨1/10, true⟩]] : List (List Fl)).filterMap usableRange
        = [((0 : ℚ), (1/10 : ℚ))] := by
      norm_num [usableRange, List.filterMap]
    have hceil : ⌈((7 : ℚ)/2)⌉ = 4 := by
      rw [Int.ceil_eq_iff]
      constructor <;> norm_num
    simp only [buildGlobalTimeline, h1]
    norm_num [npArange, hceil]
    norm_num [show Int.toNat 4 = 4 from rfl, List.range_succ]
  · have hfl : ⌊((1 : ℚ)/10 - 0) * 25⌋ = 2 := by
      rw [Int.floor_eq_iff]
      constructor <;> norm_num
    norm_num [claimTimeline, hfl]
    norm_num [show Int.toNat 2 = 2 from rfl, List.range_succ]

/-- Witness for C1 at a concrete input: one vehicle covering `[0, 1]`
at `fps = 1`. -/
theorem claim1_witness :
    ([[⟨0, true⟩, ⟨1, true⟩]] : List (List Fl)).filterMap usableRange =
        ((0 : ℚ), (1 : ℚ)) :: [] ∧ 0 < 1 ∧
    (∃ res, buildGlobalTimeline [[⟨0, true⟩, ⟨1, true⟩]] 1 = Except.ok res ∧
        res.t0 ∈ ((((0 : ℚ), (1 : ℚ)) :: []).map Prod.fst) ∧
        (∀ s ∈ ((((0 : ℚ), (1 : ℚ)) :: []).map Prod.fst), res.t0 ≤ s) ∧
        res.t1 ∈ ((((0 : ℚ), (1 : ℚ)) :: []).map Prod.snd) ∧
        (∀ e ∈ ((((0 : ℚ), (1 : ℚ)) :: []).map Prod.snd), e ≤ res.t1) ∧
        0 < res.t1 - res.t0 ∧
        res.timeline =
          (List.range ((⌈(res.t1 - res.t0) * ((1 : ℕ) : ℚ)⌉).toNat + 1)).map
            (fun i : ℕ => (i : ℚ) * (1 / ((1 : ℕ) : ℚ))) ∧
        res.timeline ≠ []) := by
  have hfm : ([[⟨0, true⟩, ⟨1, true⟩]] : List (List Fl)).filterMap usableRange
      = ((0 : ℚ), (1 : ℚ)) :: [] := by
    norm_num [usableRange, List.filterMap]
  exact ⟨hfm, by decide,
    (claim1_corrected [[⟨0, true⟩, ⟨1, true⟩]] 1 (0, 1) [] (by decide)).2 hfm⟩

/-! ### Claim C2 — continuous-channel resampling -/

theorem getD_map_add {l : List ℚ} {t0 : ℚ} {i : ℕ} (hi : i < l.length) :
    (l.map (· + t0)).getD i 0 = l.getD i 0 + t0 := by
  have hi2 : i < (l.map (· + t0)).length := by simpa using hi
  rw [List.getD_eq_getElem _ 0 hi2, List.getD_eq_getElem l 0 hi]
  simp

/-- C2 (confirmed): for a vehicle with at least 2 samples and sorted raw
timestamps, every continuous channel is resampled by `np.interp` over the
vehicle's own raw timestamps at the absolute query times `timeline + t0`;
queries strictly before the first (after the last) raw sample give exactly
the first (last) raw sample's value, and every resampled value lies
within the channel's raw min/max. -/
theorem claim2_confirmed (all : List (String × VehicleSeries))
    (timeline : List ℚ) (t0 : ℚ) (d : String) (tel : VehicleSeries)
    (ch : ContCh) (hmem : (d, tel) ∈ all) (hlen2 : 2 ≤ tel.time.length)
    (hsort : tel.time.Pairwise (· ≤ ·))
    (hch : (rawCont tel ch).length = tel.time.length) :
    ∃ rs, (d, rs) ∈ resampleAllDrivers all timeline t0 ∧
      resCont rs ch =
        (timeline.map (· + t0)).map (npInterpOne tel.time (rawCont tel ch)) ∧
      (∀ v ∈ resCont rs ch,
        listMin (rawCont tel ch) ≤ v ∧ v ≤ listMax (rawCont tel ch)) ∧
      (∀ i, i < timeline.length →
        (timeline.getD i 0 + t0 < tel.time.getD 0 0 →
          (resCont rs ch).getD i 0 = (rawCont tel ch).getD 0 0) ∧
        (tel.time.getD (tel.time.length - 1) 0 < timeline.getD i 0 + t0 →
          (resCont rs ch).getD i 0 =
            (rawCont tel ch).getD (tel.time.length - 1) 0)) := by
  have hne : tel.time ≠ [] := by
    intro h
    rw [h] at hlen2
    simp at hlen2
  refine ⟨resampleDriverChannels tel (timeline.map (· + t0)) timeline, ?_, ?_, ?_, ?_⟩
  · refine List.mem_filterMap.mpr ⟨(d, tel), hmem, ?_⟩
    have h2 : ¬ (tel.time.length < 2) := by omega
    simp only [h2, if_false]
  · cases ch <;> rfl
  · intro v hv
    have hlink : resCont (resampleDriverChannels tel (timeline.map (· + t0)) timeline) ch =
        (timeline.map (· + t0)).map (npInterpOne tel.time (rawCont tel ch)) := by
      cases ch <;> rfl
    rw [hlink] at hv
    rcases List.mem_map.mp hv with ⟨q, _, rfl⟩
    exact npInterpOne_bounds hsort hch hne q
  · intro i hi
    have hlink : resCont (resampleDriverChannels tel (timeline.map (· + t0)) timeline) ch =
        (timeline.map (· + t0)).map (npInterpOne tel.time (rawCont tel ch)) := by
      cases ch <;> rfl
    have hi2 : i < (timeline.map (· + t0)).length := by simpa using hi
    have hgetD : (resCont (resampleDriverChannels tel (timeline.map (· + t0)) timeline) ch).getD i 0 =
        npInterpOne tel.time (rawCont tel ch) (timeline.getD i 0 + t0) := by
      rw [hlink]
      have hi3 : i < ((timeline.map (· + t0)).map
          (npInterpOne tel.time (rawCont tel ch))).length := by simpa using hi
      rw [List.getD_eq_getElem _ 0 hi3, List.getElem_map, ← getD_map_add hi,
        List.getD_eq_getElem _ 0 hi2]
    constructor
    · intro hq
      rw [hgetD]
      exact npInterpOne_before hsort hne hq
    · intro hq
      rw [hgetD]
      exact npInterpOne_after hsort hne hq

/-- Witness for C2 at a concrete input. -/
theorem claim2_witness :
    ((("A", exampleTel) : String × VehicleSeries) ∈
        [(("A" : String), exampleTel)]) ∧ 2 ≤ exampleTel.time.length ∧
    exampleTel.time.Pairwise (· ≤ ·) ∧
    (rawCont exampleTel ContCh.x).length = exampleTel.time.length ∧
    (∃ rs, ("A", rs) ∈ resampleAllDrivers [("A", exampleTel)] [0, 1/2, 5] 0 ∧
      resCont rs ContCh.x =
        (([0, 1/2, 5] : List ℚ).map (· + 0)).map
          (npInterpOne exampleTel.time (rawCont exampleTel ContCh.x)) ∧
      (∀ v ∈ resCont rs ContCh.x,
        listMin (rawCont exampleTel ContCh.x) ≤ v ∧
          v ≤ listMax (rawCont exampleTel ContCh.x)) ∧
      (∀ i, i < ([0, 1/2, 5] : List ℚ).length →
        (([0, 1/2, 5] : List ℚ).getD i 0 + 0 < exampleTel.time.getD 0 0 →
          (resCont rs ContCh.x).getD i 0 = (rawCont exampleTel ContCh.x).getD 0 0) ∧
        (exampleTel.time.getD (exampleTel.time.length - 1) 0 <
            ([0, 1/2, 5] : List ℚ).getD i 0 + 0 →
          (resCont rs ContCh.x).getD i 0 =
            (rawCont exampleTel ContCh.x).getD
              (exampleTel.time.length - 1) 0))) := by
  refine ⟨by decide, by decide, by decide, by decide, ?_⟩
  exact claim2_confirmed [("A", exampleTel)] [0, 1/2, 5] 0 "A" exampleTel
    ContCh.x (by decide) (by decide) (by decide) (by decide)

/-! ### Claim C3 — discrete-channel resampling -/

/-- C3 (confirmed): for a vehicle with at least 2 samples, sorted raw
timestamps and integral `int16`-range discrete samples, every discrete
channel is resampled stepwise: the value at query time `t` is the raw
sample at the greatest raw timestamp `<= t`, a query preceding all raw
samples yields the first sample's value, and every resampled value is a
member of the vehicle's raw sample set. -/
theorem claim3_confirmed (all : List (String × VehicleSeries))
    (timeline : List ℚ) (t0 : ℚ) (d : String) (tel : VehicleSeries)
    (ch : DiscCh) (hmem : (d, tel) ∈ all) (hlen2 : 2 ≤ tel.time.length)
    (hsort : tel.time.Pairwise (· ≤ ·))
    (hch : (rawDisc tel ch).length = tel.time.length)
    (hint : ∀ v ∈ rawDisc tel ch, astypeInt16 v = v) :
    ∃ rs, (d, rs) ∈ resampleAllDrivers all timeline t0 ∧
      resDisc rs ch = (timeline.map (· + t0)).map
        (fun q => astypeInt16 (interpStepwiseOne tel.time (rawDisc tel ch) q)) ∧
      (∀ v ∈ resDisc rs ch, v ∈ rawDisc tel ch) ∧
      (∀ i, i < timeline.length →
        (timeline.getD i 0 + t0 < tel.time.getD 0 0 →
          (resDisc rs ch).getD i 0 = (rawDisc tel ch).getD 0 0) ∧
        (tel.time.getD 0 0 ≤ timeline.getD i 0 + t0 →
          ∃ k, k < tel.time.length ∧
            tel.time.getD k 0 ≤ timeline.getD i 0 + t0 ∧
            (∀ m, m < tel.time.length →
              tel.time.getD m 0 ≤ timeline.getD i 0 + t0 →
              tel.time.getD m 0 ≤ tel.time.getD k 0) ∧
            (resDisc rs ch).getD i 0 = (rawDisc tel ch).getD k 0)) := by
  have hne : tel.time ≠ [] := by
    intro h
    rw [h] at hlen2
    simp at hlen2
  have hvne : rawDisc tel ch ≠ [] := by
    intro h
    rw [h] at hch
    simp at hch
    omega
  have hlink : ∀ rsx : ResampledSeries,
      rsx = resampleDriverChannels tel (timeline.map (· + t0)) timeline →
      resDisc rsx ch = (timeline.map (· + t0)).map
        (fun q => astypeInt16 (interpStepwiseOne tel.time (rawDisc tel ch) q)) := by
    intro rsx hrsx
    subst hrsx
    cases ch <;> simp [resampleDriverChannels, resDisc, rawDisc, interpStepwise,
      List.map_map, Function.comp]
  refine ⟨resampleDriverChannels tel (timeline.map (· + t0)) timeline, ?_, ?_, ?_, ?_⟩
  · refine List.mem_filterMap.mpr ⟨(d, tel), hmem, ?_⟩
    have h2 : ¬ (tel.time.length < 2) := by omega
    simp only [h2, if_false]
  · exact hlink _ rfl
  · intro v hv
    rw [hlink _ rfl] at hv
    rcases List.mem_map.mp hv with ⟨q, _, rfl⟩
    rw [hint _ (interpStepwiseOne_mem hvne q)]
    exact interpStepwiseOne_mem hvne q
  · intro i hi
    have hi2 : i < (timeline.map (· + t0)).length := by simpa using hi
    have hgetD : (resDisc (resampleDriverChannels tel
        (timeline.map (· + t0)) timeline) ch).getD i 0 =
        astypeInt16 (interpStepwiseOne tel.time (rawDisc tel ch)
          (timeline.getD i 0 + t0)) := by
      rw [hlink _ rfl]
      have hi3 : i < ((timeline.map (· + t0)).map
          (fun q => astypeInt16 (interpStepwiseOne tel.time (rawDisc tel ch) q))).length := by
        simpa using hi
      rw [List.getD_eq_getElem _ 0 hi3, List.getElem_map, ← getD_map_add hi,
        List.getD_eq_getElem _ 0 hi2]
    constructor
    · intro hq
      rw [hgetD, interpStepwiseOne_before hsort hne hq]
      exact hint _ (@getD_mem (rawDisc tel ch) 0 (by omega))
    · intro hq
      have hc1 : 1 ≤ searchsortedRight tel.time (timeline.getD i 0 + t0) := by
        by_contra hc
        push_neg at hc
        have hc0 : searchsortedRight tel.time (timeline.getD i 0 + t0) = 0 := by omega
        have h0lt : 0 < tel.time.length := by omega
        have hgt : timeline.getD i 0 + t0 < tel.time[0] :=
          sorted_gt_of_countP_le hsort h0lt (by omega)
        rw [List.getD_eq_getElem tel.time 0 h0lt] at hq
        exact absurd hq (not_le.mpr hgt)
      rcases interpStepwiseOne_greatest hsort hch hc1 with ⟨hval, hle, hgr⟩
      refine ⟨searchsortedRight tel.time (timeline.getD i 0 + t0) - 1, ?_, hle, hgr, ?_⟩
      · have := searchsortedRight_le_length tel.time (timeline.getD i 0 + t0)
        omega
      · rw [hgetD, hval]
        refine hint _ (getD_mem ?_)
        have := searchsortedRight_le_length tel.time (timeline.getD i 0 + t0)
        omega

/-- Witness for C3 at a concrete input. -/
theorem claim3_witness :
    ((("A", exampleTel) : String × VehicleSeries) ∈
        [(("A" : String), exampleTel)]) ∧ 2 ≤ exampleTel.time.length ∧
    exampleTel.time.Pairwise (· ≤ ·) ∧
    (rawDisc exampleTel DiscCh.gear).length = exampleTel.time.length ∧
    (∀ v ∈ rawDisc exampleTel DiscCh.gear, astypeInt16 v = v) ∧
    (∃ rs, ("A", rs) ∈ resampleAllDrivers [("A", exampleTel)] [0, 1/2, 5] 0 ∧
      resDisc rs DiscCh.gear = (([0, 1/2, 5] : List ℚ).map (· + 0)).map
        (fun q => astypeInt16
          (interpStepwiseOne exampleTel.time (rawDisc exampleTel DiscCh.gear) q)) ∧
      (∀ v ∈ resDisc rs DiscCh.gear, v ∈ rawDisc exampleTel DiscCh.gear) ∧
      (∀ i, i < ([0, 1/2, 5] : List ℚ).length →
        (([0, 1/2, 5] : List ℚ).getD i 0 + 0 < exampleTel.time.getD 0 0 →
          (resDisc rs DiscCh.gear).getD i 0 =
            (rawDisc exampleTel DiscCh.gear).getD 0 0) ∧
        (exampleTel.time.getD 0 0 ≤ ([0, 1/2, 5] : List ℚ).getD i 0 + 0 →
          ∃ k, k < exampleTel.time.length ∧
            exampleTel.time.getD k 0 ≤ ([0, 1/2, 5] : List ℚ).getD i 0 + 0 ∧
            (∀ m, m < exampleTel.time.length →
              exampleTel.time.getD m 0 ≤ ([0, 1/2, 5] : List ℚ).getD i 0 + 0 →
              exampleTel.time.getD m 0 ≤ exampleTel.time.getD k 0) ∧
            (resDisc rs DiscCh.gear).getD i 0 =
              (rawDisc exampleTel DiscCh.gear).getD k 0))) := by
  refine ⟨by decide, by decide, by decide, by decide, ?_, ?_⟩
  · intro v hv
    fin_cases hv <;> decide
  · refine claim3_confirmed [("A", exampleTel)] [0, 1/2, 5] 0 "A" exampleTel
      DiscCh.gear (by decide) (by decide) (by decide) (by decide) ?_
    intro v hv
    fin_cases hv <;> decide

/-! ### Claim C4 — stitcher error handling -/

theorem timeOrderFails_eq_false {ts : List ℚ} (hs : ts.Pairwise (· ≤ ·)) :
    timeOrderFails ts = false := by
  induction ts with
  | nil => rfl
  | cons a tl ih =>
    cases tl with
    | nil => rfl
    | cons b l =>
      rcases List.pairwise_cons.mp hs with ⟨ha, htl⟩
      have hab : a ≤ b := ha b (List.mem_cons_self b l)
      have hrest := ih htl
      simp only [timeOrderFails, List.tail_cons, List.zip_cons_cons,
        List.any_cons, Bool.or_eq_false_iff] at hrest ⊢
      exact ⟨by simpa using not_lt.mpr hab, hrest⟩

/-- C4 (code bug): the stitcher's time-ordering check can never fire —
the samples are sorted by time immediately before the check — so
`extract_driver_telemetry` always succeeds; in particular no vehicle is
ever dropped with a `TimeOrderingError`, and (as the uncaught `raise` in
the source shows) a firing check would have aborted the whole
extraction rather than dropping one vehicle. -/
theorem claim4_code_bug (session : List (String × List LapInput)) :
    ∃ out, extractDriverTelemetry session = Except.ok out := by
  induction session with
  | nil => exact ⟨[], rfl⟩
  | cons dl rest ih =>
    rcases ih with ⟨out, hout⟩
    unfold extractDriverTelemetry at hout ⊢
    rw [List.foldr_cons, hout]
    by_cases h1 : dl.2.isEmpty
    · exact ⟨out, by simp only [h1, if_true]⟩
    · simp only [h1, if_false]
      by_cases h2 : (collectLaps dl.2).isEmpty
      · exact ⟨out, by simp [h2]⟩
      · simp only [h2, if_false]
        have hsorted : (sortStable (fun a b => a.time < b.time)
            (collectLaps dl.2)).Pairwise
            (fun x y => decide (y.time < x.time) = false) := by
          refine sortStable_pairwise _ ?_ ?_ _
          · intro a b hab
            simp only [decide_eq_true_eq] at hab
            simpa using not_lt.mpr (le_of_lt hab)
          · intro a b c h1 h2
            simp only [decide_eq_false_iff_not, not_lt] at h1 h2 ⊢
            exact le_trans h1 h2
        have htimes : ((sortStable (fun a b => a.time < b.time)
            (collectLaps dl.2)).map (fun s => s.time)).Pairwise (· ≤ ·) := by
          refine List.Pairwise.map _ ?_ hsorted
          intro a b hab
          simpa using hab
        have hfalse : timeOrderFails ((samplesToSeries
            (sortStable (fun a b => a.time < b.time) (collectLaps dl.2))).time)
            = false := by
          exact timeOrderFails_eq_false htimes
        simp only [hfalse, Bool.false_eq_true, if_false]
        exact ⟨_, rfl⟩

/-! ### Lemmas about the frame synthesizer -/

theorem sortedProgressAt_perm (r : List (String × ResampledSeries))
    (lapLength : ℚ) (i : ℕ) :
    List.Perm (sortedProgressAt r lapLength i) (progressListAt r lapLength i) :=
  sortStable_perm _ _

theorem sortedProgressAt_pairwise (r : List (String × ResampledSeries))
    (lapLength : ℚ) (i : ℕ) :
    (sortedProgressAt r lapLength i).Pairwise (fun x y => y.2 ≤ x.2) := by
  have h := sortStable_pairwise (fun a b : String × ℚ => decide (b.2 < a.2))
    (by
      intro a b hab
      simp only [decide_eq_true_eq] at hab
      simpa using not_lt.mpr (le_of_lt hab))
    (by
      intro a b c h1 h2
      simp only [decide_eq_false_iff_not, not_lt] at h1 h2 ⊢
      exact le_trans h2 h1)
    (progressListAt r lapLength i)
  refine h.imp ?_
  intro a b hab
  simpa using hab

theorem positionsAt_map_fst (r : List (String × ResampledSeries))
    (lapLength : ℚ) (i : ℕ) :
    (positionsAt r lapLength i).map Prod.fst =
      (sortedProgressAt r lapLength i).map Prod.fst := by
  unfold positionsAt
  rw [List.map_map]
  have h : (Prod.fst ∘ fun p : ℕ × (String × ℚ) => (p.2.1, p.1)) =
      (fun p : ℕ × (String × ℚ) => p.2.1) := rfl
  rw [h]
  have h2 : (fun p : ℕ × (String × ℚ) => p.2.1) =
      (Prod.fst ∘ Prod.snd) := rfl
  rw [h2, ← List.map_map, List.enumFrom_map_snd]

theorem positionsAt_map_snd (r : List (String × ResampledSeries))
    (lapLength : ℚ) (i : ℕ) :
    (positionsAt r lapLength i).map Prod.snd =
      List.range' 1 (sortedProgressAt r lapLength i).length := by
  unfold positionsAt
  rw [List.map_map]
  have h : (Prod.snd ∘ fun p : ℕ × (String × ℚ) => (p.2.1, p.1)) =
      (Prod.fst : ℕ × (String × ℚ) → ℕ) := rfl
  rw [h, List.enumFrom_map_fst]

theorem lookup_enumFrom_map (l : List (String × ℚ)) :
    ∀ (n : ℕ) (d : String) (k : ℕ) (hk : k < l.length),
    (l.map Prod.fst).Nodup → (l.get ⟨k, hk⟩).1 = d →
    ((l.enumFrom n).map (fun p => (p.2.1, p.1))).lookup d = some (n + k) := by
  induction l with
  | nil => intro n d k hk; cases hk
  | cons a tl ih =>
    intro n d k hk hnd hdk
    have hnd2 : (a.1 :: tl.map Prod.fst).Nodup := by simpa using hnd
    rcases List.nodup_cons.mp hnd2 with ⟨hna, hntl⟩
    cases k with
    | zero =>
      simp only [List.get] at hdk
      simp [List.enumFrom, List.lookup, hdk]
    | succ k =>
      have hk2 : k < tl.length := by simpa using hk
      have hdk2 : (tl.get ⟨k, hk2⟩).1 = d := hdk
      have hdmem : d ∈ tl.map Prod.fst := by
        rw [← hdk2]
        exact List.mem_map_of_mem Prod.fst (tl.get_mem k hk2)
      have hne : a.1 ≠ d := by
        intro he
        exact hna (he ▸ hdmem)
      have hbeq : (d == a.1) = false := by
        simp [Ne.symm hne]
      simp only [List.enumFrom, List.map_cons, List.lookup, hbeq]
      rw [ih (n + 1) d k hk2 hntl hdk2]
      congr 1
      omega

theorem lookup_map_keyed {β : Type _} {γ : Type _} (g : String × β → γ) :
    ∀ (r : List (String × β)) (d : String),
    ((r.map (fun p => (p.1, g p))).lookup d) =
      (r.find? (fun p => d == p.1)).map g := by
  intro r d
  induction r with
  | nil => rfl
  | cons a tl ih =>
    simp only [List.map_cons, List.lookup, List.find?]
    by_cases h : (d == a.1) = true
    · simp [h]
    · have h2 : (d == a.1) = false := by
        simpa using h
      simp only [h2]
      exact ih

theorem find?_eq_of_nodup {β : Type _} {r : List (String × β)} {d : String}
    {v : β} (hnd : (r.map Prod.fst).Nodup) (hmem : (d, v) ∈ r) :
    r.find? (fun p => d == p.1) = some (d, v) := by
  induction r with
  | nil => cases hmem
  | cons a tl ih =>
    have hnd2 : (a.1 :: tl.map Prod.fst).Nodup := by simpa using hnd
    rcases List.nodup_cons.mp hnd2 with ⟨hna, hntl⟩
    rcases List.mem_cons.mp hmem with rfl | hmem2
    · simp [List.find?]
    · have hne : a.1 ≠ d := by
        intro he
        apply hna
        rw [he]
        exact List.mem_map_of_mem Prod.fst hmem2
      have hbeq : (d == a.1) = false := by simp [Ne.symm hne]
      simp only [List.find?, hbeq]
      exact ih hntl hmem2

theorem lookup_eq_of_nodup {β : Type _} {r : List (String × β)} {d : String}
    {v : β} (hnd : (r.map Prod.fst).Nodup) (hmem : (d, v) ∈ r) :
    r.lookup d = some v := by
  induction r with
  | nil => cases hmem
  | cons a tl ih =>
    have hnd2 : (a.1 :: tl.map Prod.fst).Nodup := by simpa using hnd
    rcases List.nodup_cons.mp hnd2 with ⟨hna, hntl⟩
    rcases List.mem_cons.mp hmem with rfl | hmem2
    · simp [List.lookup]
    · have hne : a.1 ≠ d := by
        intro he
        apply hna
        rw [he]
        exact List.mem_map_of_mem Prod.fst hmem2
      have hbeq : (d == a.1) = false := by simp [Ne.symm hne]
      simp only [List.lookup, hbeq]
      exact ih hntl hmem2

theorem sublist_pair_indices {α : Type _} {x y : α} : ∀ {l : List α},
    List.Sublist [x, y] l →
    ∃ (k1 k2 : ℕ) (h1 : k1 < l.length) (h2 : k2 < l.length), k1 < k2 ∧
      l.get ⟨k1, h1⟩ = x ∧ l.get ⟨k2, h2⟩ = y := by
  intro l h
  induction l with
  | nil => cases h
  | cons a tl ih =>
    cases h with
    | cons _ h2 =>
      rcases ih h2 with ⟨k1, k2, h1, h2b, hk, hx, hy⟩
      exact ⟨k1 + 1, k2 + 1, by simpa using h1, by simpa using h2b,
        by omega, hx, hy⟩
    | cons₂ _ h2 =>
      have hy : y ∈ tl := List.singleton_sublist.mp h2
      rcases List.mem_iff_getElem.mp hy with ⟨k, hkl, hk⟩
      refine ⟨0, k + 1, by simp, by simpa using hkl, by omega, rfl, ?_⟩
      simpa [List.get_cons_succ] using hk

theorem mkFrame_drivers_lookup {r : List (String × ResampledSeries)}
    (hnd : (r.map Prod.fst).Nodup) {d : String} {rsd : ResampledSeries}
    (hmem : (d, rsd) ∈ r) (lapLength : ℚ) (events : List FastestLapEvent)
    (prev : List (String × ℕ)) (i : ℕ) (t : ℚ) :
    (mkFrame r lapLength events prev i t).drivers.lookup d = some
      { x := rsd.x.getD i 0
        y := rsd.y.getD i 0
        speed := rsd.speed.getD i 0
        distance := rsd.distance.getD i 0
        lap := lapClamped rsd i
        gear := ratTrunc (rsd.gear.getD i 0)
        drs := ratTrunc (rsd.drs.getD i 0)
        progress := ((progressListAt r lapLength i).lookup d).getD 0
        pos := ((positionsAt r lapLength i).lookup d).getD 0
        throttle := rsd.throttle.getD i 0
        brake := rsd.brake.getD i 0 } := by
  show (r.map (fun p => (p.1, _))).lookup d = _
  rw [lookup_map_keyed, find?_eq_of_nodup hnd hmem]
  rfl

theorem progressListAt_map_fst (r : List (String × ResampledSeries))
    (lapLength : ℚ) (i : ℕ) :
    (progressListAt r lapLength i).map Prod.fst = r.map Prod.fst := by
  unfold progressListAt
  rw [List.map_map]
  rfl

theorem progressListAt_lookup {r : List (String × ResampledSeries)}
    (hnd : (r.map Prod.fst).Nodup) {d : String} {rsd : ResampledSeries}
    (hmem : (d, rsd) ∈ r) (lapLength : ℚ) (i : ℕ) :
    (progressListAt r lapLength i).lookup d = some (progressOf rsd lapLength i) := by
  refine lookup_eq_of_nodup ?_ ?_
  · rw [progressListAt_map_fst]
    exact hnd
  · exact List.mem_map_of_mem (fun p => (p.1, progressOf p.2 lapLength i)) hmem

/-- For a vehicle in the input (with unique keys), there is a unique rank
index `k` in the sorted progress list, and the positions table maps the
vehicle to `k + 1`. -/
theorem positionsAt_lookup_exists {r : List (String × ResampledSeries)}
    (hnd : (r.map Prod.fst).Nodup) {d : String} {rsd : ResampledSeries}
    (hmem : (d, rsd) ∈ r) (lapLength : ℚ) (i : ℕ) :
    ∃ (k : ℕ) (hk : k < (sortedProgressAt r lapLength i).length),
      (sortedProgressAt r lapLength i).get ⟨k, hk⟩ =
        (d, progressOf rsd lapLength i) ∧
      (positionsAt r lapLength i).lookup d = some (1 + k) := by
  have hperm := sortedProgressAt_perm r lapLength i
  have hndp : ((progressListAt r lapLength i).map Prod.fst).Nodup := by
    rw [progressListAt_map_fst]
    exact hnd
  have hnds : ((sortedProgressAt r lapLength i).map Prod.fst).Nodup := by
    exact ((hperm.map Prod.fst).nodup_iff).mpr hndp
  have hmemp : (d, progressOf rsd lapLength i) ∈ progressListAt r lapLength i :=
    List.mem_map_of_mem (fun p => (p.1, progressOf p.2 lapLength i)) hmem
  have hmems : (d, progressOf rsd lapLength i) ∈ sortedProgressAt r lapLength i :=
    hperm.symm.subset hmemp
  rcases List.mem_iff_getElem.mp hmems with ⟨k, hk, hget⟩
  refine ⟨k, hk, ?_, ?_⟩
  · rw [List.get_eq_getElem]
    exact hget
  · unfold positionsAt
    refine lookup_enumFrom_map _ 1 d k hk hnds ?_
    rw [List.get_eq_getElem, hget]

theorem framesLoop_length (r : List (String × ResampledSeries)) (lapLength : ℚ)
    (events : List FastestLapEvent) :
    ∀ (tl : List ℚ) (i : ℕ) (prev : List (String × ℕ)),
    (framesLoop r lapLength events tl i prev).length = tl.length := by
  intro tl
  induction tl with
  | nil => intro i prev; rfl
  | cons t rest ih =>
    intro i prev
    simp only [framesLoop, List.length_cons]
    rw [ih]

theorem framesLoop_mem (r : List (String × ResampledSeries)) (lapLength : ℚ)
    (events : List FastestLapEvent) :
    ∀ (tl : List ℚ) (i : ℕ) (prev : List (String × ℕ)) (f : Frame),
    f ∈ framesLoop r lapLength events tl i prev →
    ∃ (j : ℕ) (prev2 : List (String × ℕ)) (t : ℚ),
      f = mkFrame r lapLength events prev2 j t := by
  intro tl
  induction tl with
  | nil => intro i prev f h; cases h
  | cons t rest ih =>
    intro i prev f h
    rcases List.mem_cons.mp h with rfl | h2
    · exact ⟨i, prev, t, rfl⟩
    · exact ih (i + 1) _ f h2

theorem framesLoop_getElem (r : List (String × ResampledSeries)) (lapLength : ℚ)
    (events : List FastestLapEvent) :
    ∀ (tl : List ℚ) (i0 : ℕ) (prev : List (String × ℕ)) (j : ℕ),
    j < tl.length →
    (framesLoop r lapLength events tl i0 prev)[j]? =
      some (mkFrame r lapLength events
        (if j = 0 then prev else positionsAt r lapLength (i0 + j - 1))
        (i0 + j) (tl.getD j 0)) := by
  intro tl
  induction tl with
  | nil => intro i0 prev j hj; cases hj
  | cons t rest ih =>
    intro i0 prev j hj
    cases j with
    | zero => simp [framesLoop]
    | succ k =>
      have hk : k < rest.length := by simpa using hj
      simp only [framesLoop, List.getElem?_cons_succ]
      rw [ih (i0 + 1) (positionsAt r lapLength i0) k hk]
      have hA : (if k = 0 then positionsAt r lapLength i0
          else positionsAt r lapLength (i0 + 1 + k - 1)) =
          positionsAt r lapLength (i0 + k) := by
        cases k with
        | zero => simp
        | succ m =>
          have h1 : ¬ (m + 1 = 0) := by omega
          simp only [h1, if_false]
          congr 1
          omega
      have hB : ¬ (k + 1 = 0) := by omega
      rw [hA]
      simp only [hB, if_false]
      have hC : i0 + 1 + k = i0 + (k + 1) := by omega
      have hD : i0 + (k + 1) - 1 = i0 + k := by omega
      rw [hC, hD]
      rfl

/-- The frame sequence is the map of `frameAt` over the timeline indices. -/
theorem buildFrames_getElem (r : List (String × ResampledSeries)) (tl : List ℚ)
    (lapLength : ℚ) (ds : List (String × List (ℤ × SectorEntry))) {j : ℕ}
    (hj : j < tl.length) :
    (buildFrames r tl lapLength ds)[j]? =
      some (frameAt r lapLength (buildFastestLapEvents ds) tl j) := by
  unfold buildFrames frameAt
  rw [framesLoop_getElem r lapLength _ tl 0 [] j hj]
  simp only [Nat.zero_add]

/-! ### Claim C10 — no overtakes at the first frame -/

/-- C10 (confirmed): the first frame's `position_changes` list is always
empty — overtake detection only fires when a previous frame's positions
exist, and the carried accumulator starts empty. -/
theorem claim10_confirmed (r : List (String × ResampledSeries)) (tl : List ℚ)
    (lapLength : ℚ) (ds : List (String × List (ℤ × SectorEntry))) (f : Frame)
    (hf : (buildFrames r tl lapLength ds).head? = some f) :
    f.position_changes = [] := by
  cases tl with
  | nil => cases hf
  | cons t rest =>
    have hf2 : mkFrame r lapLength (buildFastestLapEvents ds) [] 0 t = f := by
      have : (buildFrames r (t :: rest) lapLength ds).head? =
          some (mkFrame r lapLength (buildFastestLapEvents ds) [] 0 t) := rfl
      rw [this] at hf
      exact Option.some.inj hf
    subst hf2
    show positionChangesAt (r.map (fun p => p.1))
      (positionsAt r lapLength 0) [] t = []
    unfold positionChangesAt
    simp

/-- Witness for C10 at a concrete input. -/
theorem claim10_witness :
    ∃ f, (buildFrames [("A", constRS [1] [0])] [0] 100 []).head? = some f ∧
      f.position_changes = [] := by
  refine ⟨mkFrame [("A", constRS [1] [0])] 100 (buildFastestLapEvents []) [] 0 0,
    rfl, ?_⟩
  exact claim10_confirmed [("A", constRS [1] [0])] [0] 100 [] _ rfl

/-! ### Claim C6 — ranks form a permutation of 1..N -/

theorem map_lookup_getD (ps : List (String × ℕ))
    (hnd : (ps.map Prod.fst).Nodup) :
    (ps.map Prod.fst).map (fun d => (ps.lookup d).getD 0) = ps.map Prod.snd := by
  induction ps with
  | nil => rfl
  | cons a tl ih =>
    have hnd2 : (a.1 :: tl.map Prod.fst).Nodup := by simpa using hnd
    rcases List.nodup_cons.mp hnd2 with ⟨hna, hntl⟩
    simp only [List.map_cons]
    congr 1
    · simp [List.lookup]
    · rw [← ih hntl]
      refine List.map_congr_left ?_
      intro d hd
      have hne : a.1 ≠ d := by
        intro he
        exact hna (he ▸ hd)
      have hbeq : (d == a.1) = false := by simp [Ne.symm hne]
      simp only [List.lookup, hbeq]

/-- C6 (confirmed): in every frame, each input vehicle appears exactly
once and the assigned positions are a permutation of `1..N`. -/
theorem claim6_confirmed (r : List (String × ResampledSeries)) (tl : List ℚ)
    (lapLength : ℚ) (ds : List (String × List (ℤ × SectorEntry)))
    (hnd : (r.map Prod.fst).Nodup) (f : Frame)
    (hf : f ∈ buildFrames r tl lapLength ds) :
    f.drivers.map Prod.fst = r.map Prod.fst ∧
    List.Perm (f.drivers.map (fun p => p.2.pos))
      (List.range' 1 f.drivers.length) := by
  rcases framesLoop_mem r lapLength _ tl 0 [] f hf with ⟨j, prev2, t, rfl⟩
  have hfst : (mkFrame r lapLength (buildFastestLapEvents ds) prev2 j t).drivers.map
      Prod.fst = r.map Prod.fst := by
    show (r.map _).map Prod.fst = _
    rw [List.map_map]
    rfl
  refine ⟨hfst, ?_⟩
  have hlen : (mkFrame r lapLength (buildFastestLapEvents ds) prev2 j t).drivers.length
      = r.length := by
    show (r.map _).length = _
    rw [List.length_map]
  rw [hlen]
  have hmappos : (mkFrame r lapLength (buildFastestLapEvents ds) prev2 j t).drivers.map
      (fun p => p.2.pos) =
      (r.map Prod.fst).map
        (fun d => ((positionsAt r lapLength j).lookup d).getD 0) := by
    show (r.map _).map _ = _
    rw [List.map_map, List.map_map]
    rfl
  rw [hmappos]
  have hpermfst : List.Perm (r.map Prod.fst)
      ((positionsAt r lapLength j).map Prod.fst) := by
    rw [positionsAt_map_fst]
    have h1 : List.Perm (sortedProgressAt r lapLength j)
        (progressListAt r lapLength j) := sortedProgressAt_perm r lapLength j
    have h2 := (h1.map Prod.fst).symm
    rw [progressListAt_map_fst] at h2
    exact h2
  have hndpos : ((positionsAt r lapLength j).map Prod.fst).Nodup :=
    hpermfst.nodup_iff.mp hnd
  have hperm2 : List.Perm
      ((r.map Prod.fst).map
        (fun d => ((positionsAt r lapLength j).lookup d).getD 0))
      (((positionsAt r lapLength j).map Prod.fst).map
        (fun d => ((positionsAt r lapLength j).lookup d).getD 0)) :=
    hpermfst.map _
  rw [map_lookup_getD _ hndpos] at hperm2
  rw [positionsAt_map_snd] at hperm2
  have hlen2 : (sortedProgressAt r lapLength j).length = r.length := by
    rw [(sortedProgressAt_perm r lapLength j).length_eq]
    unfold progressListAt
    rw [List.length_map]
  rw [hlen2] at hperm2
  exact hperm2

/-- Witness for C6 at a concrete input. -/
theorem claim6_witness :
    ((([("A", constRS [1] [0]), ("B", constRS [1] [5])] :
        List (String × ResampledSeries)).map Prod.fst).Nodup) ∧
    (∃ f, f ∈ buildFrames [("A", constRS [1] [0]), ("B", constRS [1] [5])]
        [0] 100 [] ∧
      f.drivers.map Prod.fst =
        ([("A", constRS [1] [0]), ("B", constRS [1] [5])] :
          List (String × ResampledSeries)).map Prod.fst ∧
      List.Perm (f.drivers.map (fun p => p.2.pos))
        (List.range' 1 f.drivers.length)) := by
  have heq : buildFrames [("A", constRS [1] [0]), ("B", constRS [1] [5])] [0] 100 []
      = [mkFrame [("A", constRS [1] [0]), ("B", constRS [1] [5])] 100
          (buildFastestLapEvents []) [] 0 0] := rfl
  have hmem : mkFrame [("A", constRS [1] [0]), ("B", constRS [1] [5])] 100
      (buildFastestLapEvents []) [] 0 0 ∈
      buildFrames [("A", constRS [1] [0]), ("B", constRS [1] [5])] [0] 100 [] := by
    rw [heq]
    exact List.mem_cons_self _ _
  exact ⟨by decide, ⟨_, hmem,
    claim6_confirmed _ [0] 100 [] (by decide) _ hmem⟩⟩

/-! ### Claim C5 — tie-breaking in the ranking -/

theorem progressLt_asym : ∀ a b : String × ℚ,
    (decide (b.2 < a.2)) = true → (decide (a.2 < b.2)) = false := by
  intro a b h
  simp only [decide_eq_true_eq] at h
  simpa using not_lt.mpr (le_of_lt h)

theorem progressLt_negTrans : ∀ a b c : String × ℚ,
    decide (a.2 < b.2) = false → decide (b.2 < c.2) = false →
    decide (a.2 < c.2) = false := by
  intro a b c h1 h2
  simp only [decide_eq_false_iff_not, not_lt] at h1 h2 ⊢
  exact le_trans h2 h1

theorem sortedProgressAt_nodup_fst {r : List (String × ResampledSeries)}
    (hnd : (r.map Prod.fst).Nodup) (lapLength : ℚ) (i : ℕ) :
    ((sortedProgressAt r lapLength i).map Prod.fst).Nodup := by
  have hperm := sortedProgressAt_perm r lapLength i
  have hndp : ((progressListAt r lapLength i).map Prod.fst).Nodup := by
    rw [progressListAt_map_fst]
    exact hnd
  exact ((hperm.map Prod.fst).nodup_iff).mpr hndp

/-- C5 (amended): when two vehicles' progress values are exactly equal at
a frame, their relative order in that frame's ranking equals their
relative order in the (fixed) input vehicle list — not the previous
frame's relative order. -/
theorem claim5_corrected (r : List (String × ResampledSeries)) (tl : List ℚ)
    (lapLength : ℚ) (ds : List (String × List (ℤ × SectorEntry)))
    (hnd : (r.map Prod.fst).Nodup) (d1 d2 : String)
    (rs1 rs2 : ResampledSeries)
    (hsub : List.Sublist [(d1, rs1), (d2, rs2)] r)
    (i : ℕ) (f : Frame)
    (hf : (buildFrames r tl lapLength ds)[i]? = some f)
    (heq : progressOf rs1 lapLength i = progressOf rs2 lapLength i) :
    framePos f d1 < framePos f d2 := by
  have hl : i < (buildFrames r tl lapLength ds).length := by
    by_contra hc
    push_neg at hc
    rw [List.getElem?_eq_none hc] at hf
    cases hf
  have hi : i < tl.length := by
    have hlen := framesLoop_length r lapLength (buildFastestLapEvents ds) tl 0 []
    unfold buildFrames at hl
    omega
  rw [buildFrames_getElem r tl lapLength ds hi] at hf
  have hfeq := Option.some.inj hf
  subst hfeq
  have hm1 : (d1, rs1) ∈ r := hsub.subset (List.mem_cons_self _ _)
  have hm2 : (d2, rs2) ∈ r := hsub.subset (by simp)
  have hsubp : List.Sublist
      [(d1, progressOf rs1 lapLength i), (d2, progressOf rs2 lapLength i)]
      (progressListAt r lapLength i) := by
    have h := hsub.map (fun p => (p.1, progressOf p.2 lapLength i))
    simpa [progressListAt] using h
  have hltyx : decide ((d1, progressOf rs1 lapLength i).2 <
      (d2, progressOf rs2 lapLength i).2) = false := by
    simp [heq]
  have hstab : List.Sublist
      [(d1, progressOf rs1 lapLength i), (d2, progressOf rs2 lapLength i)]
      (sortedProgressAt r lapLength i) :=
    sortStable_stable _ progressLt_asym progressLt_negTrans hsubp hltyx
  rcases sublist_pair_indices hstab with ⟨k1, k2, h1, h2, hk12, hx, hy⟩
  have hnds := sortedProgressAt_nodup_fst hnd lapLength i
  have hl1 : (positionsAt r lapLength i).lookup d1 = some (1 + k1) := by
    unfold positionsAt
    exact lookup_enumFrom_map _ 1 d1 k1 h1 hnds (by rw [hx])
  have hl2 : (positionsAt r lapLength i).lookup d2 = some (1 + k2) := by
    unfold positionsAt
    exact lookup_enumFrom_map _ 1 d2 k2 h2 hnds (by rw [hy])
  have hp1 : framePos (frameAt r lapLength (buildFastestLapEvents ds) tl i) d1
      = 1 + k1 := by
    unfold framePos frameAt
    rw [mkFrame_drivers_lookup hnd hm1]
    show (((positionsAt r lapLength i).lookup d1).getD 0) = 1 + k1
    rw [hl1]
    rfl
  have hp2 : framePos (frameAt r lapLength (buildFastestLapEvents ds) tl i) d2
      = 1 + k2 := by
    unfold framePos frameAt
    rw [mkFrame_drivers_lookup hnd hm2]
    show (((positionsAt r lapLength i).lookup d2).getD 0) = 1 + k2
    rw [hl2]
    rfl
  rw [hp1, hp2]
  omega

/-- C5 counterexample: drivers `A` then `B` in input order; at frame 0,
`B` leads (`B` rank 1, `A` rank 2); at frame 1 their progress ties, and
the code ranks `A` first (input order), not `B` (previous frame order) —
frame 1's ranking does not preserve frame 0's relative order. -/
theorem claim5_counterexample :
    ∃ f0 f1,
      (buildFrames [("A", constRS [1, 1] [0, 1]), ("B", constRS [1, 1] [1, 1])]
        [0, 1] 100 [])[0]? = some f0 ∧
      (buildFrames [("A", constRS [1, 1] [0, 1]), ("B", constRS [1, 1] [1, 1])]
        [0, 1] 100 [])[1]? = some f1 ∧
      frameProgress f1 "A" = frameProgress f1 "B" ∧
      framePos f0 "B" < framePos f0 "A" ∧
      framePos f1 "A" < framePos f1 "B" := by
  refine ⟨_, _, rfl, rfl, ?_, ?_, ?_⟩ <;>
    norm_num [framePos, frameProgress, mkFrame, positionsAt, sortedProgressAt,
      progressListAt, sortStable, stableInsert, progressOf, lapClamped, ratTrunc,
      normLapDistance, constRS, List.lookup, List.enumFrom,
      show (("B" : String) == "A") = false by decide,
      show (("A" : String) == "B") = false by decide,
      show (("A" : String) == "A") = true by decide,
      show (("B" : String) == "B") = true by decide]

/-- Witness for C5 at a concrete input: two vehicles with equal progress;
the one earlier in the input list is ranked first. -/
theorem claim5_witness :
    ((([("A", constRS [1] [5]), ("B", constRS [1] [5])] :
        List (String × ResampledSeries)).map Prod.fst).Nodup) ∧
    List.Sublist [("A", constRS [1] [5]), ("B", constRS [1] [5])]
      [("A", constRS [1] [5]), ("B", constRS [1] [5])] ∧
    progressOf (constRS [1] [5]) 100 0 = progressOf (constRS [1] [5]) 100 0 ∧
    ∃ f, (buildFrames [("A", constRS [1] [5]), ("B", constRS [1] [5])]
        [0] 100 [])[0]? = some f ∧
      framePos f "A" < framePos f "B" := by
  refine ⟨by decide, List.Sublist.refl _, rfl, _, rfl, ?_⟩
  exact claim5_corrected _ [0] 100 [] (by decide) "A" "B" _ _
    (List.Sublist.refl _) 0 _ rfl rfl

/-! ### Claim C7 — degraded ranking for non-positive lap length -/

theorem progressOf_zero (rs : ResampledSeries) (i : ℕ) :
    progressOf rs 0 i = rs.distance.getD i 0 := by
  unfold progressOf normLapDistance
  simp

theorem frameProgress_frameAt {r : List (String × ResampledSeries)}
    (hnd : (r.map Prod.fst).Nodup) {d : String} {rs : ResampledSeries}
    (hmem : (d, rs) ∈ r) (lapLength : ℚ) (events : List FastestLapEvent)
    (tl : List ℚ) (i : ℕ) :
    frameProgress (frameAt r lapLength events tl i) d =
      progressOf rs lapLength i := by
  unfold frameProgress frameAt
  rw [mkFrame_drivers_lookup hnd hmem]
  show ((progressListAt r lapLength i).lookup d).getD 0 = _
  rw [progressListAt_lookup hnd hmem]
  rfl

theorem frameDist_frameAt {r : List (String × ResampledSeries)}
    (hnd : (r.map Prod.fst).Nodup) {d : String} {rs : ResampledSeries}
    (hmem : (d, rs) ∈ r) (lapLength : ℚ) (events : List FastestLapEvent)
    (tl : List ℚ) (i : ℕ) :
    frameDist (frameAt r lapLength events tl i) d = rs.distance.getD i 0 := by
  unfold frameDist frameAt
  rw [mkFrame_drivers_lookup hnd hmem]
  rfl

theorem framePos_frameAt {r : List (String × ResampledSeries)}
    (hnd : (r.map Prod.fst).Nodup) {d : String} {rs : ResampledSeries}
    (hmem : (d, rs) ∈ r) (lapLength : ℚ) (events : List FastestLapEvent)
    (tl : List ℚ) (i : ℕ) :
    framePos (frameAt r lapLength events tl i) d =
      ((positionsAt r lapLength i).lookup d).getD 0 := by
  unfold framePos frameAt
  rw [mkFrame_drivers_lookup hnd hmem]
  rfl

/-- C7 (amended): with `lap_length <= 0` the synthesizer does not abort
and still yields one frame per timeline entry; the `%`-normalization is
disabled, and ranking is by descending `(lap-1)*lap_length + distance`.
For `lap_length = 0` this is exactly descending raw-distance ordering;
for `lap_length < 0` it is not (see the counterexample). -/
theorem claim7_corrected (r : List (String × ResampledSeries)) (tl : List ℚ)
    (ds : List (String × List (ℤ × SectorEntry))) (lapLength : ℚ)
    (hL : lapLength ≤ 0) (hnd : (r.map Prod.fst).Nodup) :
    (buildFrames r tl lapLength ds).length = tl.length ∧
    (lapLength = 0 → ∀ (i : ℕ) (f : Frame),
      (buildFrames r tl lapLength ds)[i]? = some f →
      ∀ (d1 d2 : String) (rs1 rs2 : ResampledSeries),
        (d1, rs1) ∈ r → (d2, rs2) ∈ r →
        framePos f d1 < framePos f d2 →
        frameDist f d2 ≤ frameDist f d1) := by
  constructor
  · exact framesLoop_length r lapLength (buildFastestLapEvents ds) tl 0 []
  · rintro rfl i f hf d1 d2 rs1 rs2 hm1 hm2 hpos
    have hl : i < (buildFrames r tl 0 ds).length := by
      by_contra hc
      push_neg at hc
      rw [List.getElem?_eq_none hc] at hf
      cases hf
    have hi : i < tl.length := by
      have hlen := framesLoop_length r 0 (buildFastestLapEvents ds) tl 0 []
      unfold buildFrames at hl
      omega
    rw [buildFrames_getElem r tl 0 ds hi] at hf
    have hfeq := Option.some.inj hf
    subst hfeq
    rcases positionsAt_lookup_exists hnd hm1 0 i with ⟨k1, hk1, hget1, hl1⟩
    rcases positionsAt_lookup_exists hnd hm2 0 i with ⟨k2, hk2, hget2, hl2⟩
    rw [framePos_frameAt hnd hm1, framePos_frameAt hnd hm2, hl1, hl2] at hpos
    have hk12 : k1 < k2 := by
      simp only [Option.getD_some] at hpos
      omega
    have hpw := sortedProgressAt_pairwise r 0 i
    have hle : ((sortedProgressAt r 0 i).get ⟨k2, hk2⟩).2 ≤
        ((sortedProgressAt r 0 i).get ⟨k1, hk1⟩).2 :=
      List.pairwise_iff_get.mp hpw ⟨k1, hk1⟩ ⟨k2, hk2⟩ hk12
    rw [hget1, hget2] at hle
    rw [frameDist_frameAt hnd hm1, frameDist_frameAt hnd hm2]
    rw [progressOf_zero, progressOf_zero] at hle
    exact hle

/-- C7 counterexample: with `lap_length = -100`, vehicle `A` on lap 2 at
raw distance 50 gets progress `-50` and is ranked behind `B` (lap 1,
raw distance 10, progress 10) — the opposite of the claimed raw-distance
ordering. -/
theorem claim7_counterexample :
    ∃ f, (buildFrames [("A", constRS [2] [50]), ("B", constRS [1] [10])]
        [0] (-100) [])[0]? = some f ∧
      frameDist f "B" < frameDist f "A" ∧
      framePos f "B" < framePos f "A" := by
  refine ⟨_, rfl, ?_, ?_⟩ <;>
    norm_num [framePos, frameDist, mkFrame, positionsAt, sortedProgressAt,
      progressListAt, sortStable, stableInsert, progressOf, lapClamped, ratTrunc,
      normLapDistance, constRS, List.lookup, List.enumFrom,
      show (("B" : String) == "A") = false by decide,
      show (("A" : String) == "B") = false by decide,
      show (("A" : String) == "A") = true by decide,
      show (("B" : String) == "B") = true by decide]

/-- Witness for C7 at a concrete input with `lap_length = 0`. -/
theorem claim7_witness :
    ((([("A", constRS [1] [5]), ("B", constRS [1] [3])] :
        List (String × ResampledSeries)).map Prod.fst).Nodup) ∧
    ((0 : ℚ) ≤ 0) ∧
    ((buildFrames [("A", constRS [1] [5]), ("B", constRS [1] [3])] [0] 0 []).length
        = ([0] : List ℚ).length ∧
      ((0 : ℚ) = 0 → ∀ (i : ℕ) (f : Frame),
        (buildFrames [("A", constRS [1] [5]), ("B", constRS [1] [3])] [0] 0 [])[i]?
          = some f →
        ∀ (d1 d2 : String) (rs1 rs2 : ResampledSeries),
          (d1, rs1) ∈ [("A", constRS [1] [5]), ("B", constRS [1] [3])] →
          (d2, rs2) ∈ [("A", constRS [1] [5]), ("B", constRS [1] [3])] →
          framePos f d1 < framePos f d2 →
          frameDist f d2 ≤ frameDist f d1)) := by
  refine ⟨by decide, by decide, ?_⟩
  exact claim7_corrected [("A", constRS [1] [5]), ("B", constRS [1] [3])]
    [0] [] 0 (by decide) (by decide)

/-! ### Claim C9 — monotonicity of progress -/

theorem ratTrunc_intCast (n : ℤ) : ratTrunc ((n : ℚ)) = n := by
  unfold ratTrunc
  by_cases h : (0 : ℚ) ≤ (n : ℚ)
  · simp [h, Int.floor_intCast]
  · simp [h, Int.ceil_intCast]

/-- When the lap counter is consistent with cumulative distance
(`lap = floor(dist / lap_length) + 1`), the frame synthesizer's progress
formula collapses to the raw distance. -/
theorem progressOf_consistent {rs : ResampledSeries} {lapLength : ℚ}
    (hL : 0 < lapLength) {i : ℕ}
    (hlap : rs.lap.getD i 0 = ((⌊rs.distance.getD i 0 / lapLength⌋ + 1 : ℤ) : ℚ))
    (hd : 0 ≤ rs.distance.getD i 0) :
    progressOf rs lapLength i = rs.distance.getD i 0 := by
  unfold progressOf lapClamped normLapDistance
  rw [hlap, ratTrunc_intCast]
  have hfl : 0 ≤ ⌊rs.distance.getD i 0 / lapLength⌋ :=
    Int.floor_nonneg.mpr (div_nonneg hd (le_of_lt hL))
  have hnc : ¬ (⌊rs.distance.getD i 0 / lapLength⌋ + 1 < 1) := by omega
  have hnl : ¬ (lapLength ≤ 0) := not_le.mpr hL
  simp only [hnc, if_false, hnl]
  push_cast
  ring

/-- C9 (amended): progress is exactly
`(max(lap,1)-1)*lap_length + (dist mod lap_length)` per frame, but it is
NOT non-decreasing in general (counterexample: distance wraps past a
multiple of `lap_length` without a lap increment). It is non-decreasing
whenever the resampled distance is non-negative and non-decreasing and
the lap channel is consistent with it
(`lap_i = floor(dist_i / lap_length) + 1`). -/
theorem claim9_corrected (r : List (String × ResampledSeries)) (tl : List ℚ)
    (lapLength : ℚ) (ds : List (String × List (ℤ × SectorEntry)))
    (hnd : (r.map Prod.fst).Nodup) (d : String) (rs : ResampledSeries)
    (hmem : (d, rs) ∈ r) (hL : 0 < lapLength)
    (hlap : ∀ k, k < tl.length →
      rs.lap.getD k 0 = ((⌊rs.distance.getD k 0 / lapLength⌋ + 1 : ℤ) : ℚ))
    (hd0 : ∀ k, k < tl.length → 0 ≤ rs.distance.getD k 0)
    (hmono : ∀ k m, k ≤ m → m < tl.length →
      rs.distance.getD k 0 ≤ rs.distance.getD m 0)
    (i j : ℕ) (hij : i ≤ j) (fi fj : Frame)
    (hfi : (buildFrames r tl lapLength ds)[i]? = some fi)
    (hfj : (buildFrames r tl lapLength ds)[j]? = some fj) :
    frameProgress fi d ≤ frameProgress fj d := by
  have hlj : j < tl.length := by
    have hl : j < (buildFrames r tl lapLength ds).length := by
      by_contra hc
      push_neg at hc
      rw [List.getElem?_eq_none hc] at hfj
      cases hfj
    have hlen := framesLoop_length r lapLength (buildFastestLapEvents ds) tl 0 []
    unfold buildFrames at hl
    omega
  have hli : i < tl.length := lt_of_le_of_lt hij hlj
  rw [buildFrames_getElem r tl lapLength ds hli] at hfi
  rw [buildFrames_getElem r tl lapLength ds hlj] at hfj
  have hfieq := Option.some.inj hfi
  have hfjeq := Option.some.inj hfj
  subst hfieq
  subst hfjeq
  rw [frameProgress_frameAt hnd hmem, frameProgress_frameAt hnd hmem]
  rw [progressOf_consistent hL (hlap i hli) (hd0 i hli),
      progressOf_consistent hL (hlap j hlj) (hd0 j hlj)]
  exact hmono i j hij hlj

/-- C9 counterexample: one vehicle stays on lap 1 while its distance
wraps from 99 to 101 past `lap_length = 100`: progress drops from 99 to
1 between consecutive frames. -/
theorem claim9_counterexample :
    ∃ f0 f1,
      (buildFrames [("A", constRS [1, 1] [99, 101])] [0, 1] 100 [])[0]? = some f0 ∧
      (buildFrames [("A", constRS [1, 1] [99, 101])] [0, 1] 100 [])[1]? = some f1 ∧
      frameProgress f1 "A" < frameProgress f0 "A" := by
  refine ⟨_, _, rfl, rfl, ?_⟩
  norm_num [frameProgress, mkFrame, positionsAt, sortedProgressAt,
    progressListAt, sortStable, stableInsert, progressOf, lapClamped, ratTrunc,
    normLapDistance, constRS, List.lookup, List.enumFrom,
    show (("A" : String) == "A") = true by decide]

/-- Witness for C9 at a concrete input with a consistent lap counter. -/
theorem claim9_witness :
    ((([("A", constRS [1, 2] [50, 150])] :
        List (String × ResampledSeries)).map Prod.fst).Nodup) ∧
    ((("A", constRS [1, 2] [50, 150]) : String × ResampledSeries) ∈
      [("A", constRS [1, 2] [50, 150])]) ∧
    (0 : ℚ) < 100 ∧
    (∀ k, k < ([0, 1] : List ℚ).length →
      (constRS [1, 2] [50, 150]).lap.getD k 0 =
        ((⌊(constRS [1, 2] [50, 150]).distance.getD k 0 / 100⌋ + 1 : ℤ) : ℚ)) ∧
    (∀ k, k < ([0, 1] : List ℚ).length →
      0 ≤ (constRS [1, 2] [50, 150]).distance.getD k 0) ∧
    (∀ k m, k ≤ m → m < ([0, 1] : List ℚ).length →
      (constRS [1, 2] [50, 150]).distance.getD k 0 ≤
        (constRS [1, 2] [50, 150]).distance.getD m 0) ∧
    ∃ f0 f1,
      (buildFrames [("A", constRS [1, 2] [50, 150])] [0, 1] 100 [])[0]? = some f0 ∧
      (buildFrames [("A", constRS [1, 2] [50, 150])] [0, 1] 100 [])[1]? = some f1 ∧
      frameProgress f0 "A" ≤ frameProgress f1 "A" := by
  have hlap : ∀ k, k < ([0, 1] : List ℚ).length →
      (constRS [1, 2] [50, 150]).lap.getD k 0 =
        ((⌊(constRS [1, 2] [50, 150]).distance.getD k 0 / 100⌋ + 1 : ℤ) : ℚ) := by
    intro k hk
    have hk2 : k < 2 := by simpa using hk
    interval_cases k <;> norm_num [constRS]
  have hd0 : ∀ k, k < ([0, 1] : List ℚ).length →
      0 ≤ (constRS [1, 2] [50, 150]).distance.getD k 0 := by
    intro k hk
    have hk2 : k < 2 := by simpa using hk
    interval_cases k <;> norm_num [constRS]
  have hmono : ∀ k m, k ≤ m → m < ([0, 1] : List ℚ).length →
      (constRS [1, 2] [50, 150]).distance.getD k 0 ≤
        (constRS [1, 2] [50, 150]).distance.getD m 0 := by
    intro k m hkm hm
    have hm2 : m < 2 := by simpa using hm
    interval_cases m <;> interval_cases k <;> norm_num [constRS]
  refine ⟨by decide, by decide, by norm_num, hlap, hd0, hmono, _, _, rfl, rfl, ?_⟩
  exact claim9_corrected [("A", constRS [1, 2] [50, 150])] [0, 1] 100 []
    (by decide) "A" (constRS [1, 2] [50, 150]) (by decide) (by norm_num)
    hlap hd0 hmono 0 1 (by omega) _ _ rfl rfl

/-! ### Claim C8 — fastest-lap events and cursor -/

theorem improveScan_spec : ∀ (cs : List Completion),
    cs.Pairwise (fun a b => a.s3_time ≤ b.s3_time) → ∀ cf : Option ℚ,
    (improveScan cf cs).Pairwise
      (fun e1 e2 => e1.time ≤ e2.time ∧ e2.lap_time < e1.lap_time) ∧
    (∀ e ∈ improveScan cf cs,
      (∀ b, cf = some b → e.lap_time < b) ∧
      ∃ c ∈ cs, e.time = c.s3_time ∧ e.lap_time = c.lap_time) := by
  intro cs
  induction cs with
  | nil =>
    intro h cf
    exact ⟨List.Pairwise.nil, by simp [improveScan]⟩
  | cons c rest ih =>
    intro h cf
    rcases List.pairwise_cons.mp h with ⟨hc, hrest⟩
    by_cases hbet : improveBetter cf c.lap_time = true
    · rcases ih hrest (some c.lap_time) with ⟨ihp, ihe⟩
      have hmain : ∀ e ∈ improveScan (some c.lap_time) rest,
          c.s3_time ≤ e.time ∧ e.lap_time < c.lap_time := by
        intro e he
        rcases ihe e he with ⟨hcf, c2, hc2, ht2, _⟩
        exact ⟨ht2 ▸ hc c2 hc2, hcf c.lap_time rfl⟩
      constructor
      · simp only [improveScan, hbet, if_true]
        refine List.pairwise_cons.mpr ⟨?_, ihp⟩
        intro e he
        exact hmain e he
      · intro e he
        simp only [improveScan, hbet, if_true] at he
        rcases List.mem_cons.mp he with rfl | he2
        · refine ⟨?_, c, List.mem_cons_self c rest, rfl, rfl⟩
          intro b hb
          rw [hb] at hbet
          simpa [improveBetter] using hbet
        · rcases ihe e he2 with ⟨hcf, c2, hc2, ht2, hl2⟩
          refine ⟨?_, c2, List.mem_cons_of_mem c hc2, ht2, hl2⟩
          intro b hb
          have hlt : e.lap_time < c.lap_time := hcf c.lap_time rfl
          rw [hb] at hbet
          have hcb : c.lap_time < b := by simpa [improveBetter] using hbet
          exact lt_trans hlt hcb
    · have hbet2 : improveBetter cf c.lap_time = false := by
        simpa using hbet
      rcases ih hrest cf with ⟨ihp, ihe⟩
      constructor
      · simpa only [improveScan, hbet2, Bool.false_eq_true, if_false] using ihp
      · intro e he
        simp only [improveScan, hbet2, Bool.false_eq_true, if_false] at he
        rcases ihe e he with ⟨hcf, c2, hc2, ht2, hl2⟩
        exact ⟨hcf, c2, List.mem_cons_of_mem c hc2, ht2, hl2⟩

theorem buildFastestLapEvents_pairwise
    (ds : List (String × List (ℤ × SectorEntry))) :
    (buildFastestLapEvents ds).Pairwise
      (fun e1 e2 => e1.time ≤ e2.time ∧ e2.lap_time < e1.lap_time) := by
  have hpw : (sortStable (fun a b : Completion => decide (a.s3_time < b.s3_time))
      (allLapCompletions ds)).Pairwise (fun a b => a.s3_time ≤ b.s3_time) := by
    have h := sortStable_pairwise
      (fun a b : Completion => decide (a.s3_time < b.s3_time))
      (by
        intro a b hab
        simp only [decide_eq_true_eq] at hab
        simpa using not_lt.mpr (le_of_lt hab))
      (by
        intro a b c h1 h2
        simp only [decide_eq_false_iff_not, not_lt] at h1 h2 ⊢
        exact le_trans h1 h2)
      (allLapCompletions ds)
    refine h.imp ?_
    intro a b hab
    simpa using hab
  exact (improveScan_spec _ hpw none).1

theorem scanFL_eq_getLast (t : ℚ) : ∀ (events : List FastestLapEvent),
    events.Pairwise (fun e1 e2 => e1.time ≤ e2.time) →
    ∀ acc, scanFL t events acc =
      match (events.filter (fun e => decide (e.time ≤ t))).getLast? with
      | none => acc
      | some e => some e := by
  intro events
  induction events with
  | nil => intro h acc; rfl
  | cons e rest ih =>
    intro h acc
    rcases List.pairwise_cons.mp h with ⟨he, hrest⟩
    by_cases het : e.time ≤ t
    · have hscan : scanFL t (e :: rest) acc = scanFL t rest (some e) := by
        simp [scanFL, het]
      rw [hscan, ih hrest (some e)]
      have hf : (e :: rest).filter (fun x => decide (x.time ≤ t)) =
          e :: rest.filter (fun x => decide (x.time ≤ t)) := by
        simp [List.filter_cons, het]
      rw [hf]
      cases hrf : rest.filter (fun x => decide (x.time ≤ t)) with
      | nil => simp
      | cons y ys =>
        rw [List.getLast?_cons_cons]
        cases hgl : (y :: ys).getLast? with
        | none => simp at hgl
        | some z => rfl
    · have hscan : scanFL t (e :: rest) acc = acc := by
        simp [scanFL, het]
      rw [hscan]
      have hf : (e :: rest).filter (fun x => decide (x.time ≤ t)) = [] := by
        rw [List.filter_eq_nil_iff]
        intro x hx
        rcases List.mem_cons.mp hx with rfl | hx2
        · simpa using het
        · have : x.time ≤ t → e.time ≤ t := fun hxt =>
            le_trans (he x hx2) hxt
          simp only [decide_eq_true_eq]
          intro hxt
          exact het (this hxt)
      rw [hf]
      rfl

/-- C8 (amended): the fastest-lap event list is non-decreasing (not
strictly increasing) in completion time and strictly decreasing in lap
time; at every frame the reported fastest lap is the last event at or
before the frame's time (null if none), marked new exactly when
`0 <= t - event_time <= 5`. -/
theorem claim8_corrected (r : List (String × ResampledSeries)) (tl : List ℚ)
    (lapLength : ℚ) (ds : List (String × List (ℤ × SectorEntry))) :
    (buildFastestLapEvents ds).Pairwise
      (fun e1 e2 => e1.time ≤ e2.time ∧ e2.lap_time < e1.lap_time) ∧
    (∀ f ∈ buildFrames r tl lapLength ds,
      f.fastest_lap =
        match ((buildFastestLapEvents ds).filter
            (fun e => decide (e.time ≤ f.t))).getLast? with
        | none => ⟨none, none, none, false⟩
        | some e => ⟨some e.driver, some e.lap_time, some e.lap_num,
            decide (0 ≤ f.t - e.time) && decide (f.t - e.time ≤ 5)⟩) := by
  refine ⟨buildFastestLapEvents_pairwise ds, ?_⟩
  intro f hf
  rcases framesLoop_mem r lapLength _ tl 0 [] f hf with ⟨j, prev2, t, rfl⟩
  show fastestLapInfoAt (buildFastestLapEvents ds) t = _
  unfold fastestLapInfoAt
  rw [scanFL_eq_getLast t (buildFastestLapEvents ds)
    ((buildFastestLapEvents_pairwise ds).imp (fun h => h.1)) none]
  cases hg : ((buildFastestLapEvents ds).filter
      (fun e => decide (e.time ≤ (mkFrame r lapLength
        (buildFastestLapEvents ds) prev2 j t).t))).getLast? with
  | none =>
    have hg2 : ((buildFastestLapEvents ds).filter
        (fun e => decide (e.time ≤ t))).getLast? = none := hg
    rw [hg2]
  | some e =>
    have hg2 : ((buildFastestLapEvents ds).filter
        (fun e => decide (e.time ≤ t))).getLast? = some e := hg
    rw [hg2]
    rfl

/-- C8 counterexample: two laps completed at the same `s3_time = 10`
with improving lap times produce two events with equal completion times
— the event list is not strictly increasing in completion time. -/
theorem claim8_counterexample :
    ∃ e1 e2, buildFastestLapEvents
        [("X", [((1 : ℤ), ⟨some 90, some 10⟩)]),
         ("Y", [((1 : ℤ), ⟨some 88, some 10⟩)])] = [e1, e2] ∧
      e1.time = e2.time ∧ e2.lap_time < e1.lap_time := by
  exact ⟨_, _, rfl, rfl, by norm_num⟩

/-- Witness for C8: the amended statement applied at the spec's own
scenario (events at t=10/90s and t=40/88s, frames at t=20, 41, 50). -/
theorem claim8_witness :
    (buildFastestLapEvents
        [("X", [((1 : ℤ), ⟨some 90, some 10⟩)]),
         ("Y", [((1 : ℤ), ⟨some 88, some 40⟩)])]).Pairwise
      (fun e1 e2 => e1.time ≤ e2.time ∧ e2.lap_time < e1.lap_time) ∧
    (∀ f ∈ buildFrames [("A", constRS [1, 1, 1] [0, 0, 0])] [20, 41, 50] 100
        [("X", [((1 : ℤ), ⟨some 90, some 10⟩)]),
         ("Y", [((1 : ℤ), ⟨some 88, some 40⟩)])],
      f.fastest_lap =
        match ((buildFastestLapEvents
            [("X", [((1 : ℤ), ⟨some 90, some 10⟩)]),
             ("Y", [((1 : ℤ), ⟨some 88, some 40⟩)])]).filter
            (fun e => decide (e.time ≤ f.t))).getLast? with
        | none => ⟨none, none, none, false⟩
        | some e => ⟨some e.driver, some e.lap_time, some e.lap_num,
            decide (0 ≤ f.t - e.time) && decide (f.t - e.time ≤ 5)⟩) :=
  claim8_corrected [("A", constRS [1, 1, 1] [0, 0, 0])] [20, 41, 50] 100
    [("X", [((1 : ℤ), ⟨some 90, some 10⟩)]),
     ("Y", [((1 : ℤ), ⟨some 88, some 40⟩)])]

end F1Replay
